import Mathlib

/-!
# Kalah board engine and search: a shallow embedding

This file embeds the core of the `kalah` program (file `kalah.go`, the
current version of the sources): the board representation, `makeMove`
(sowing with capture and bonus-move detection), `checkEnd` (win-threshold
check and terminal sweep), the alpha-beta search `alphaBeta`, and the
final most-visits scan of `chooseMonteCarlo`.  Go `int` values are
modelled as `Int`; the two `[7]int` pit arrays are length-7 `List Int`s.
Go runtime panics (explicit `panic` calls, array index out of range) are
modelled by returning `none`.
-/

namespace Kalah

/-- Go constant `MAXIMIZER = 1` (the computer's side). -/
def MAXIMIZER : Int := 1

/-- Go constant `MINIMIZER = -1` (the human's side). -/
def MINIMIZER : Int := -1

/-- Go constant `UNSET = 0`. -/
def UNSET : Int := 0

/-- Go constant `WIN = 10000`. -/
def WIN : Int := 10000

/-- Go constant `LOSS = -10000`. -/
def LOSS : Int := -10000

/-- The Go `Board` struct: `maxpits [7]int`, `minpits [7]int` (pits 0-5
plus the store at index 6), and the `player` field recording who made the
move that produced this configuration.  The `reverse` display flag is
output-only and omitted. -/
structure Board where
  maxpits : List Int
  minpits : List Int
  player : Int := 0
deriving Repr, DecidableEq

/-- A board is well formed when each side is a 7-entry array (6 pits and
a store) of non-negative counts, as the data model requires. -/
def Board.WF (bd : Board) : Prop :=
  bd.maxpits.length = 7 ∧ bd.minpits.length = 7 ∧
    (∀ x ∈ bd.maxpits, 0 ≤ x) ∧ (∀ x ∈ bd.minpits, 0 ≤ x)

instance (bd : Board) : Decidable bd.WF := by
  unfold Board.WF; infer_instance

/-- `sides[0]` of `makeMove`: the mover's own seven pits. -/
def moverSide (bd : Board) (player : Int) : List Int :=
  if player = MAXIMIZER then bd.maxpits else bd.minpits

/-- `sides[1]` of `makeMove`: the opponent's seven pits. -/
def otherSide (bd : Board) (player : Int) : List Int :=
  if player = MAXIMIZER then bd.minpits else bd.maxpits

/-- The mutable state of `makeMove`'s sowing loop: the two sides
(`s0` is the mover's), the stones in hand, the pit cursor `i`, the side
flag `S` (`true` once sowing crossed to the opponent's side, matching the
Go `S ^= 1` flips), and the `bonusmove` flag. -/
structure SowSt where
  s0 : List Int
  s1 : List Int
  hand : Int
  i : Nat
  S : Bool
  bonus : Bool
deriving Repr, DecidableEq

/-- The capture test opening the loop body of `makeMove`:
`hand == 1 && S == 0 && i < 6 && sides[S][i] == 0 && sides[S^1][5-i] > 0`.
On capture the opposite pit's stones plus one move to the mover's store,
the opposite pit is zeroed, and the landing pit is pre-decremented
("so no special cases just below"). -/
def captureStep (st : SowSt) : SowSt :=
  if st.hand = 1 ∧ st.S = false ∧ st.i < 6 ∧ st.s0.getD st.i 0 = 0 ∧
      0 < st.s1.getD (5 - st.i) 0 then
    { st with
      s0 := (st.s0.set 6 (st.s0.getD 6 0 + st.s1.getD (5 - st.i) 0 + 1)).set st.i
              (st.s0.getD st.i 0 - 1),
      s1 := st.s1.set (5 - st.i) 0 }
  else st

/-- The rest of the loop body of `makeMove`: drop one stone unless the
cursor sits at the opponent's store (`S == 1 && i == 6`), then advance
the cursor, flipping sides and testing for a bonus move at `i == 6`.
Returns `none` where Go would panic with an index out of range. -/
def dropStep (st : SowSt) : Option SowSt :=
  let dropped : Option (List Int × List Int × Int) :=
    if st.S then
      if st.i = 6 then some (st.s0, st.s1, st.hand)
      else if st.i < st.s1.length then
        some (st.s0, st.s1.set st.i (st.s1.getD st.i 0 + 1), st.hand - 1)
      else none
    else
      if st.i < st.s0.length then
        some (st.s0.set st.i (st.s0.getD st.i 0 + 1), st.s1, st.hand - 1)
      else none
  dropped.map fun (s0', s1', hand') =>
    if st.i = 6 then
      { s0 := s0', s1 := s1', hand := hand', i := 0, S := !st.S,
        bonus := if hand' = 0 then true else st.bonus }
    else
      { s0 := s0', s1 := s1', hand := hand', i := st.i + 1, S := st.S,
        bonus := st.bonus }

/-- One iteration of the sowing loop body of `makeMove` (executed only
while `hand > 0`): the capture test followed by the stone drop and
cursor advance. -/
def sowStep (st : SowSt) : Option SowSt :=
  dropStep (captureStep st)

/-- The sowing loop `for i := pit + 1; hand > 0;` of `makeMove`,
with explicit fuel (each loop iteration strictly decreases
`2*hand + S`, so `makeMove` passes enough fuel). -/
def sowLoop : Nat → SowSt → Option SowSt
  | fuel, st =>
    if st.hand ≤ 0 then some st
    else
      match fuel with
      | 0 => none
      | fuel' + 1 => (sowStep st).bind (sowLoop fuel')

/-- Go `makeMove(bd *Board, pit int, player int) (nextplayer int, plydelta int)`.
Picks up the mover's chosen pit, runs the sowing loop, and reports the
next player and ply delta (`plydelta = 0` exactly on a bonus move).
`none` models the Go panics: a `player` that is neither `MAXIMIZER` nor
`MINIMIZER` (nil side pointers), `pit` outside the mover's array
(index out of range), the explicit `panic` on an empty source pit, and
the out-of-range sow write that a `pit` of 6 runs into. -/
def makeMove (bd : Board) (pit player : Int) : Option (Board × Int × Int) :=
  if player = MAXIMIZER ∨ player = MINIMIZER then
    let s0 := moverSide bd player
    let s1 := otherSide bd player
    if 0 ≤ pit ∧ pit.toNat < s0.length then
      let hand := s0.getD pit.toNat 0
      let s0 := s0.set pit.toNat 0
      if hand = 0 then none
      else
        (sowLoop (2 * hand.toNat + 1)
            { s0 := s0, s1 := s1, hand := hand, i := pit.toNat + 1,
              S := false, bonus := false }).map fun st =>
          let bd' :=
            if player = MAXIMIZER then
              { maxpits := st.s0, minpits := st.s1, player := player }
            else
              { maxpits := st.s1, minpits := st.s0, player := player }
          if st.bonus then (bd', player, 0) else (bd', -player, 1)
    else none
  else none

/-- The sum `for i := 0; i < 6; i++ { sidesum += side[i] }` of one side's
six pits (the store at index 6 excluded). -/
def pitSum (l : List Int) : Int := (l.take 6).sum

/-- The sweep loop of `checkEnd`: `side[i] = UNSET` for the six pits,
keeping the store. -/
def clearPits (l : List Int) : List Int :=
  (List.range 6).foldl (fun acc i => acc.set i 0) l

/-- Go `checkEnd(bd *Board) (end bool, winner int)`, parameterised by the
global `winningStonesCount` threshold `W` (set to 6 × stones-per-pit by
`main`).  Returns the possibly swept board together with `(end, winner)`:
an early win when either store exceeds `W`, otherwise the terminal sweep
when either side's pits are all empty, with the winner taken from the
store comparison. -/
def checkEnd (W : Int) (bd : Board) : Board × Bool × Int :=
  if bd.maxpits.getD 6 0 > W then (bd, true, MAXIMIZER)
  else if bd.minpits.getD 6 0 > W then (bd, true, MINIMIZER)
  else
    let maxsidesum := pitSum bd.maxpits
    let minsidesum := pitSum bd.minpits
    if minsidesum = 0 ∨ maxsidesum = 0 then
      let maxpits' :=
        (clearPits bd.maxpits).set 6 ((clearPits bd.maxpits).getD 6 0 + maxsidesum)
      let minpits' :=
        (clearPits bd.minpits).set 6 ((clearPits bd.minpits).getD 6 0 + minsidesum)
      let d := maxpits'.getD 6 0 - minpits'.getD 6 0
      ({ maxpits := maxpits', minpits := minpits', player := bd.player },
        true, if d > 0 then MAXIMIZER else if d < 0 then MINIMIZER else d)
    else (bd, false, UNSET)

/-- The total stone count: both sides' pits plus both stores. -/
def total (bd : Board) : Int := bd.maxpits.sum + bd.minpits.sum

/-! ## List helper lemmas -/

theorem getD_set_self (l : List Int) (i : Nat) (v : Int) (h : i < l.length) :
    (l.set i v).getD i 0 = v := by
  simp [List.getD_eq_getElem?_getD, List.getElem?_set_self, h]

theorem getD_set_ne (l : List Int) (i j : Nat) (v : Int) (h : i ≠ j) :
    (l.set i v).getD j 0 = l.getD j 0 := by
  simp [List.getD_eq_getElem?_getD, List.getElem?_set_ne h]

theorem sum_set (l : List Int) (i : Nat) (v : Int) (h : i < l.length) :
    (l.set i v).sum = l.sum + v - l.getD i 0 := by
  induction l generalizing i with
  | nil => simp at h
  | cons a t ih =>
    cases i with
    | zero => simp [List.getD]; ring
    | succ n =>
      simp only [List.set, List.sum_cons, List.getD_cons_succ]
      rw [ih n (by simpa using Nat.lt_of_succ_lt_succ h)]
      ring

theorem nonneg_set (l : List Int) (i : Nat) (v : Int)
    (hl : ∀ x ∈ l, 0 ≤ x) (hv : 0 ≤ v) : ∀ x ∈ l.set i v, 0 ≤ x := by
  intro x hx
  rcases List.mem_or_eq_of_mem_set hx with h | h
  · exact hl x h
  · simpa [h] using hv

theorem nonneg_getD (l : List Int) (i : Nat) (hl : ∀ x ∈ l, 0 ≤ x) :
    0 ≤ l.getD i 0 := by
  rcases Nat.lt_or_ge i l.length with h | h
  · rw [List.getD_eq_getElem l 0 h]
    exact hl _ (l.getElem_mem h)
  · rw [List.getD_eq_default l 0 h]

/-- A length-7 list is a literal 7-tuple; used to unfold `checkEnd` on
well-formed boards. -/
theorem list_len7 (l : List Int) (h : l.length = 7) :
    ∃ a b c d e f g, l = [a, b, c, d, e, f, g] := by
  match l, h with
  | [a, b, c, d, e, f, g], _ => exact ⟨a, b, c, d, e, f, g, rfl⟩

/-! ## Sowing loop invariants -/


/-- `captureStep` written out on an explicit state. -/
theorem captureStep_eq (s0 s1 : List Int) (hand : Int) (i : Nat) (S b : Bool) :
    captureStep ⟨s0, s1, hand, i, S, b⟩ =
      if hand = 1 ∧ S = false ∧ i < 6 ∧ s0.getD i 0 = 0 ∧ 0 < s1.getD (5 - i) 0 then
        ⟨(s0.set 6 (s0.getD 6 0 + s1.getD (5 - i) 0 + 1)).set i (s0.getD i 0 - 1),
          s1.set (5 - i) 0, hand, i, S, b⟩
      else ⟨s0, s1, hand, i, S, b⟩ := rfl

/-- Exact case analysis of a successful `dropStep`: the skip at the
opponent's store, a drop on the opponent's side, a drop into the mover's
store, or a drop in one of the mover's pits. -/
theorem dropStep_cases (s0 s1 : List Int) (hand : Int) (i : Nat) (S b : Bool)
    (st₁ : SowSt) (h : dropStep ⟨s0, s1, hand, i, S, b⟩ = some st₁) :
    (S = true ∧ i = 6 ∧ st₁ = ⟨s0, s1, hand, 0, false,
      if hand = 0 then true else b⟩) ∨
    (S = true ∧ ¬ i = 6 ∧ i < s1.length ∧
      st₁ = ⟨s0, s1.set i (s1.getD i 0 + 1), hand - 1, i + 1, true, b⟩) ∨
    (S = false ∧ i = 6 ∧ 6 < s0.length ∧
      st₁ = ⟨s0.set 6 (s0.getD 6 0 + 1), s1, hand - 1, 0, true,
        if hand - 1 = 0 then true else b⟩) ∨
    (S = false ∧ ¬ i = 6 ∧ i < s0.length ∧
      st₁ = ⟨s0.set i (s0.getD i 0 + 1), s1, hand - 1, i + 1, false, b⟩) := by
  cases S
  · by_cases hr : i < s0.length
    · by_cases hi : i = 6
      · subst hi
        refine Or.inr (Or.inr (Or.inl ⟨rfl, rfl, hr, ?_⟩))
        simp only [dropStep, Bool.false_eq_true, if_false, if_pos hr,
          Option.map_some', if_pos rfl, Option.some.injEq] at h
        exact h.symm
      · refine Or.inr (Or.inr (Or.inr ⟨rfl, hi, hr, ?_⟩))
        simp only [dropStep, Bool.false_eq_true, if_false, if_pos hr,
          Option.map_some', if_neg hi, Option.some.injEq] at h
        exact h.symm
    · exfalso
      simp only [dropStep, Bool.false_eq_true, if_false, if_neg hr] at h
      simp at h
  · by_cases hi : i = 6
    · subst hi
      refine Or.inl ⟨rfl, rfl, ?_⟩
      simp only [dropStep, if_true, if_pos rfl, Option.map_some',
        Option.some.injEq, Bool.not_true] at h
      exact h.symm
    · by_cases hr : i < s1.length
      · refine Or.inr (Or.inl ⟨rfl, hi, hr, ?_⟩)
        simp only [dropStep, if_true, if_neg hi, if_pos hr, Option.map_some',
          Option.some.injEq] at h
        exact h.symm
      · exfalso
        simp only [dropStep, if_true, if_neg hi, if_neg hr] at h
        simp at h


/-- One successful iteration of the sowing loop (states where Go's loop
guard `hand > 0` holds) preserves the opponent's store, the combined
stone count (pits plus hand), non-negativity and the side lengths, and
strictly decreases the loop measure `2*hand + S`. -/
theorem sowStep_spec (s0 s1 : List Int) (hand : Int) (i : Nat) (S b : Bool)
    (st₁ : SowSt) (hh : 0 < hand) (h0 : s0.length = 7) (h1 : s1.length = 7)
    (h : sowStep ⟨s0, s1, hand, i, S, b⟩ = some st₁) :
    st₁.s1.getD 6 0 = s1.getD 6 0 ∧
    st₁.s0.sum + st₁.s1.sum + st₁.hand = s0.sum + s1.sum + hand ∧
    0 ≤ st₁.hand ∧
    2 * st₁.hand.toNat + cond st₁.S 1 0 < 2 * hand.toNat + cond S 1 0 ∧
    st₁.s0.length = 7 ∧ st₁.s1.length = 7 ∧
    ((∀ x ∈ s0, 0 ≤ x) → (∀ x ∈ s1, 0 ≤ x) →
      (∀ x ∈ st₁.s0, 0 ≤ x) ∧ (∀ x ∈ st₁.s1, 0 ≤ x)) := by
  rw [sowStep, captureStep_eq] at h
  by_cases hc : hand = 1 ∧ S = false ∧ i < 6 ∧ s0.getD i 0 = 0 ∧
      0 < s1.getD (5 - i) 0
  · rw [if_pos hc] at h
    obtain ⟨hc1, hc2, hc3, hc4, hc5⟩ := hc
    subst hc2
    rcases dropStep_cases _ _ _ _ _ _ _ h with
      ⟨hS, _, _⟩ | ⟨hS, _, _, _⟩ | ⟨_, hi6, _, _⟩ | ⟨_, hi6, hrr, hst⟩
    · simp at hS
    · simp at hS
    · exact absurd hi6 (by omega)
    · subst hst
      have hX : (s0.set 6 (s0.getD 6 0 + s1.getD (5 - i) 0 + 1)).getD i 0
          = s0.getD i 0 := getD_set_ne _ _ _ _ (by omega)
      have hcsg : ((s0.set 6 (s0.getD 6 0 + s1.getD (5 - i) 0 + 1)).set i
          (s0.getD i 0 - 1)).getD i 0 = s0.getD i 0 - 1 :=
        getD_set_self _ _ _ (by simp [h0]; omega)
      have hlen : ((s0.set 6 (s0.getD 6 0 + s1.getD (5 - i) 0 + 1)).set i
          (s0.getD i 0 - 1)).length = 7 := by simp [h0]
      refine ⟨?_, ?_, ?_, ?_, ?_, ?_, ?_⟩
      · exact getD_set_ne _ _ _ _ (by omega)
      · show (((s0.set 6 (s0.getD 6 0 + s1.getD (5 - i) 0 + 1)).set i
            (s0.getD i 0 - 1)).set i
              (((s0.set 6 (s0.getD 6 0 + s1.getD (5 - i) 0 + 1)).set i
                (s0.getD i 0 - 1)).getD i 0 + 1)).sum +
          (s1.set (5 - i) 0).sum + (hand - 1) = s0.sum + s1.sum + hand
        rw [sum_set _ i _ (by rw [hlen]; omega), hcsg,
          sum_set _ i _ (by simp [h0]; omega), hX,
          sum_set _ 6 _ (by rw [h0]; omega),
          sum_set _ (5 - i) _ (by rw [h1]; omega)]
        omega
      · show (0 : Int) ≤ hand - 1
        omega
      · show 2 * (hand - 1).toNat + cond false 1 0 < 2 * hand.toNat + cond false 1 0
        simp only [Bool.cond_false]
        omega
      · show (((s0.set 6 _).set i _).set i _).length = 7
        simp [h0]
      · show (s1.set (5 - i) 0).length = 7
        simp [h1]
      · intro a c
        constructor
      
        · show ∀ x ∈ ((s0.set 6 (s0.getD 6 0 + s1.getD (5 - i) 0 + 1)).set i
              (s0.getD i 0 - 1)).set i
                (((s0.set 6 (s0.getD 6 0 + s1.getD (5 - i) 0 + 1)).set i
                  (s0.getD i 0 - 1)).getD i 0 + 1), 0 ≤ x
          rw [hcsg, List.set_set]
          refine nonneg_set _ _ _ (nonneg_set _ _ _ a ?_) ?_
          · have := nonneg_getD s0 6 a
            omega
          · omega
        · exact nonneg_set _ _ _ c le_rfl
  · rw [if_neg hc] at h
    rcases dropStep_cases _ _ _ _ _ _ _ h with
      ⟨hS, hi6, hst⟩ | ⟨hS, hi6, hrr, hst⟩ | ⟨hS, hi6, hrr, hst⟩ |
        ⟨hS, hi6, hrr, hst⟩
    · subst hst; subst hS
      refine ⟨rfl, rfl, ?_, ?_, h0, h1, fun a c => ⟨a, c⟩⟩
      · show (0 : Int) ≤ hand
        omega
      · show 2 * hand.toNat + cond false 1 0 < 2 * hand.toNat + cond true 1 0
        simp
    · subst hst; subst hS
      refine ⟨getD_set_ne _ _ _ _ (by omega), ?_, ?_, ?_, h0, ?_, ?_⟩
      · show s0.sum + (s1.set i (s1.getD i 0 + 1)).sum + (hand - 1)
            = s0.sum + s1.sum + hand
        rw [sum_set _ i _ hrr]
        ring
      · show (0 : Int) ≤ hand - 1
        omega
      · show 2 * (hand - 1).toNat + cond true 1 0 < 2 * hand.toNat + cond true 1 0
        simp only [Bool.cond_true]
        omega
      · show (s1.set i (s1.getD i 0 + 1)).length = 7
        simp [h1]
      · intro a c
        refine ⟨a, nonneg_set _ _ _ c ?_⟩
        have := nonneg_getD s1 i c
        omega
    · subst hst; subst hS
      refine ⟨rfl, ?_, ?_, ?_, ?_, h1, ?_⟩
      · show (s0.set 6 (s0.getD 6 0 + 1)).sum + s1.sum + (hand - 1)
            = s0.sum + s1.sum + hand
        rw [sum_set _ 6 _ hrr]
        ring
      · show (0 : Int) ≤ hand - 1
        omega
      · show 2 * (hand - 1).toNat + cond true 1 0 < 2 * hand.toNat + cond false 1 0
        simp only [Bool.cond_true, Bool.cond_false]
        omega
      · show (s0.set 6 (s0.getD 6 0 + 1)).length = 7
        simp [h0]
      · intro a c
        refine ⟨nonneg_set _ _ _ a ?_, c⟩
        have := nonneg_getD s0 6 a
        omega
    · subst hst; subst hS
      refine ⟨rfl, ?_, ?_, ?_, ?_, h1, ?_⟩
      · show (s0.set i (s0.getD i 0 + 1)).sum + s1.sum + (hand - 1)
            = s0.sum + s1.sum + hand
        rw [sum_set _ i _ hrr]
        ring
      · show (0 : Int) ≤ hand - 1
        omega
      · show 2 * (hand - 1).toNat + cond false 1 0 < 2 * hand.toNat + cond false 1 0
        simp only [Bool.cond_false]
        omega
      · show (s0.set i (s0.getD i 0 + 1)).length = 7
        simp [h0]
      · intro a c
        refine ⟨nonneg_set _ _ _ a ?_, c⟩
        have := nonneg_getD s0 i a
        omega

theorem sowLoop_exit (fuel : Nat) (st : SowSt) (h : st.hand ≤ 0) :
    sowLoop fuel st = some st := by
  rw [sowLoop.eq_def]
  dsimp only
  rw [if_pos h]

theorem sowLoop_succ (fuel : Nat) (st : SowSt) (h : 0 < st.hand) :
    sowLoop (fuel + 1) st = (sowStep st).bind (sowLoop fuel) := by
  rw [sowLoop.eq_def]
  dsimp only
  rw [if_neg (by omega)]

theorem sowLoop_zero (st : SowSt) (h : 0 < st.hand) :
    sowLoop 0 st = none := by
  rw [sowLoop.eq_def]
  dsimp only
  rw [if_neg (by omega)]

theorem sowLoop_of_step (fuel : Nat) (st st₁ : SowSt) (h : 0 < st.hand)
    (hs : sowStep st = some st₁) :
    sowLoop (fuel + 1) st = sowLoop fuel st₁ := by
  rw [sowLoop_succ fuel st h, hs, Option.some_bind]

/-- Any successful run of the sowing loop, started with a non-negative
hand, ends with an empty hand, preserves the opponent's store and the
combined stone count (the hand is distributed over the two sides),
and preserves the side lengths and non-negativity. -/
theorem sowLoop_spec (fuel : Nat) : ∀ (st st' : SowSt),
    sowLoop fuel st = some st' → 0 ≤ st.hand →
    st.s0.length = 7 → st.s1.length = 7 →
    st'.s1.getD 6 0 = st.s1.getD 6 0 ∧
    st'.s0.sum + st'.s1.sum = st.s0.sum + st.s1.sum + st.hand ∧
    st'.hand = 0 ∧ st'.s0.length = 7 ∧ st'.s1.length = 7 ∧
    ((∀ x ∈ st.s0, 0 ≤ x) → (∀ x ∈ st.s1, 0 ≤ x) →
      (∀ x ∈ st'.s0, 0 ≤ x) ∧ (∀ x ∈ st'.s1, 0 ≤ x)) := by
  induction fuel with
  | zero =>
    intro st st' h hh h0 h1
    by_cases hz : st.hand ≤ 0
    · rw [sowLoop_exit 0 st hz] at h
      obtain rfl : st = st' := by simpa using h
      refine ⟨rfl, by omega, by omega, h0, h1, fun a c => ⟨a, c⟩⟩
    · rw [sowLoop_zero st (by omega)] at h
      cases h
  | succ fuel' ih =>
    intro st st' h hh h0 h1
    by_cases hz : st.hand ≤ 0
    · rw [sowLoop_exit _ st hz] at h
      obtain rfl : st = st' := by simpa using h
      refine ⟨rfl, by omega, by omega, h0, h1, fun a c => ⟨a, c⟩⟩
    · rw [sowLoop_succ fuel' st (by omega)] at h
      obtain ⟨st₁, hstep, hloop⟩ := Option.bind_eq_some.mp h
      obtain ⟨s0, s1, hand, i, S, b⟩ := st
      obtain ⟨e1, e2, e3, _, e5, e6, e7⟩ :=
        sowStep_spec s0 s1 hand i S b st₁ (not_le.mp hz) h0 h1 hstep
      obtain ⟨i1, i2, i3, i4, i5, i6⟩ := ih st₁ st' hloop e3 e5 e6
      refine ⟨i1.trans e1, ?_, i3, i4, i5, ?_⟩
      · show st'.s0.sum + st'.s1.sum = s0.sum + s1.sum + hand
        omega
      · intro a c
        exact i6 (e7 a c).1 (e7 a c).2

/-- From any state with 7-entry sides and cursor at most 6, the drop
half of the loop body succeeds (no index can be out of range). -/
theorem dropStep_total (s0 s1 : List Int) (hand : Int) (i : Nat) (S b : Bool)
    (h0 : s0.length = 7) (h1 : s1.length = 7) (hi : i ≤ 6) :
    ∃ st₁, dropStep ⟨s0, s1, hand, i, S, b⟩ = some st₁ := by
  rw [← Option.isSome_iff_exists]
  cases S
  · simp [dropStep, show i < s0.length from by omega]
  · by_cases hi6 : i = 6
    · subst hi6
      simp [dropStep]
    · simp [dropStep, hi6, show i < s1.length from by omega]

/-- The position of the cursor on the 13-slot sowing cycle: the mover's
six pits are slots 0-5, the mover's store slot 6, the opponent's six
pits slots 7-12; the skipped state at the opponent's store (`S=1, i=6`)
is slot 13 ≡ 0, where the next stone will drop. -/
def slotOf (S : Bool) (i : Nat) : Nat := cond S (7 + i) i

/-- With enough fuel, the sowing loop started from a valid state (sides
of length 7, cursor at most 6, non-negative hand) succeeds, and the
resulting `bonusmove` flag is set exactly when the final stone of the
sow lands on slot 6 of the sowing cycle — the mover's own store. -/
theorem sowLoop_total (fuel : Nat) : ∀ (st : SowSt),
    st.s0.length = 7 → st.s1.length = 7 → st.i ≤ 6 → 0 ≤ st.hand →
    2 * st.hand.toNat + cond st.S 1 0 ≤ fuel →
    ∃ st', sowLoop fuel st = some st' ∧
      (st'.bonus = true ↔ (st.bonus = true ∨
        (0 < st.hand ∧ (slotOf st.S st.i + st.hand.toNat - 1) % 13 = 6))) := by
  induction fuel with
  | zero =>
    intro st h0 h1 hi hh hf
    have hz : st.hand = 0 := by
      have ht : st.hand.toNat = 0 := by
        cases hS : st.S <;> rw [hS] at hf <;>
          simp only [Bool.cond_true, Bool.cond_false] at hf <;> omega
      omega
    refine ⟨st, sowLoop_exit _ _ (by omega), ?_⟩
    simp [hz]
  | succ fuel' ih =>
    intro st h0 h1 hi hh hf
    by_cases hz : st.hand ≤ 0
    · refine ⟨st, sowLoop_exit _ _ hz, ?_⟩
      have hnp : ¬ 0 < st.hand := by omega
      simp [hnp]
    · obtain ⟨s0, s1, hand, i, S, b⟩ := st
      have hh1 : (0 : Int) < hand := not_le.mp hz
      have h0' : s0.length = 7 := h0
      have h1' : s1.length = 7 := h1
      have hi' : i ≤ 6 := hi
      rw [sowLoop_succ _ _ hh1, sowStep]
      by_cases hc : hand = 1 ∧ S = false ∧ i < 6 ∧ s0.getD i 0 = 0 ∧
          0 < s1.getD (5 - i) 0
      · obtain ⟨hc1, hc2, hc3, hc4, hc5⟩ := hc
        subst hc2
        subst hc1
        rw [captureStep_eq, if_pos ⟨rfl, rfl, hc3, hc4, hc5⟩]
        obtain ⟨st₁, hstep⟩ :=
          dropStep_total
            ((s0.set 6 (s0.getD 6 0 + s1.getD (5 - i) 0 + 1)).set i
              (s0.getD i 0 - 1))
            (s1.set (5 - i) 0) 1 i false b (by simp [h0']) (by simp [h1'])
            (by omega)
        rw [hstep, Option.some_bind]
        rcases dropStep_cases _ _ _ _ _ _ _ hstep with
          ⟨hS, _, _⟩ | ⟨hS, _, _, _⟩ | ⟨_, h6, _, _⟩ | ⟨_, h6, hr, hst⟩
        · simp at hS
        · simp at hS
        · exact absurd h6 (by omega)
        · have l0 : st₁.s0.length = 7 := by rw [hst]; simp [h0']
          have l1 : st₁.s1.length = 7 := by rw [hst]; simp [h1']
          have li : st₁.i ≤ 6 := by rw [hst]; show i + 1 ≤ 6; omega
          have lh : 0 ≤ st₁.hand := by rw [hst]; show (0:Int) ≤ 1 - 1; omega
          have lf : 2 * st₁.hand.toNat + cond st₁.S 1 0 ≤ fuel' := by
            rw [hst]
            show 2 * ((1:Int) - 1).toNat + cond false 1 0 ≤ fuel'
            simp
          obtain ⟨st', hrun, hiff⟩ := ih st₁ l0 l1 li lh lf
          refine ⟨st', hrun, ?_⟩
          rw [hiff, hst]
          cases b <;> simp [slotOf] <;> omega
      · rw [captureStep_eq, if_neg hc]
        obtain ⟨st₁, hstep⟩ := dropStep_total s0 s1 hand i S b h0' h1' hi'
        rw [hstep, Option.some_bind]
        rcases dropStep_cases _ _ _ _ _ _ _ hstep with
          ⟨hS, h6, hst⟩ | ⟨hS, h6, hr, hst⟩ | ⟨hS, h6, hr, hst⟩ |
            ⟨hS, h6, hr, hst⟩
        · subst hS; subst h6
          have hf' : 2 * hand.toNat + 1 ≤ fuel' + 1 := hf
          have l0 : st₁.s0.length = 7 := by rw [hst]; exact h0'
          have l1 : st₁.s1.length = 7 := by rw [hst]; exact h1'
          have li : st₁.i ≤ 6 := by rw [hst]; show (0:Nat) ≤ 6; omega
          have lh : 0 ≤ st₁.hand := by rw [hst]; show (0:Int) ≤ hand; omega
          have lf : 2 * st₁.hand.toNat + cond st₁.S 1 0 ≤ fuel' := by
            rw [hst]
            show 2 * hand.toNat + cond false 1 0 ≤ fuel'
            simp only [Bool.cond_false]
            omega
          obtain ⟨st', hrun, hiff⟩ := ih st₁ l0 l1 li lh lf
          refine ⟨st', hrun, ?_⟩
          rw [hiff, hst]
          have hn0 : ¬ hand = 0 := by omega
          cases b <;> simp [slotOf, hn0] <;> omega
        · subst hS
          have hf' : 2 * hand.toNat + 1 ≤ fuel' + 1 := hf
          have l0 : st₁.s0.length = 7 := by rw [hst]; exact h0'
          have l1 : st₁.s1.length = 7 := by rw [hst]; simp [h1']
          have li : st₁.i ≤ 6 := by rw [hst]; show i + 1 ≤ 6; omega
          have lh : 0 ≤ st₁.hand := by rw [hst]; show (0:Int) ≤ hand - 1; omega
          have lf : 2 * st₁.hand.toNat + cond st₁.S 1 0 ≤ fuel' := by
            rw [hst]
            show 2 * (hand - 1).toNat + cond true 1 0 ≤ fuel'
            simp only [Bool.cond_true]
            omega
          obtain ⟨st', hrun, hiff⟩ := ih st₁ l0 l1 li lh lf
          refine ⟨st', hrun, ?_⟩
          rw [hiff, hst]
          cases b <;> simp [slotOf] <;> omega
        · subst hS; subst h6
          have hf' : 2 * hand.toNat + 0 ≤ fuel' + 1 := hf
          have l0 : st₁.s0.length = 7 := by rw [hst]; simp [h0']
          have l1 : st₁.s1.length = 7 := by rw [hst]; exact h1'
          have li : st₁.i ≤ 6 := by rw [hst]; show (0:Nat) ≤ 6; omega
          have lh : 0 ≤ st₁.hand := by rw [hst]; show (0:Int) ≤ hand - 1; omega
          have lf : 2 * st₁.hand.toNat + cond st₁.S 1 0 ≤ fuel' := by
            rw [hst]
            show 2 * (hand - 1).toNat + cond true 1 0 ≤ fuel'
            simp only [Bool.cond_true]
            omega
          obtain ⟨st', hrun, hiff⟩ := ih st₁ l0 l1 li lh lf
          refine ⟨st', hrun, ?_⟩
          rw [hiff, hst]
          by_cases hb1 : hand - 1 = 0
          · cases b <;> simp [slotOf, hb1] <;> omega
          · cases b <;> simp [slotOf, hb1] <;> omega
        · subst hS
          have hf' : 2 * hand.toNat + 0 ≤ fuel' + 1 := hf
          have l0 : st₁.s0.length = 7 := by rw [hst]; simp [h0']
          have l1 : st₁.s1.length = 7 := by rw [hst]; exact h1'
          have li : st₁.i ≤ 6 := by rw [hst]; show i + 1 ≤ 6; omega
          have lh : 0 ≤ st₁.hand := by rw [hst]; show (0:Int) ≤ hand - 1; omega
          have lf : 2 * st₁.hand.toNat + cond st₁.S 1 0 ≤ fuel' := by
            rw [hst]
            show 2 * (hand - 1).toNat + cond false 1 0 ≤ fuel'
            simp only [Bool.cond_false]
            omega
          obtain ⟨st', hrun, hiff⟩ := ih st₁ l0 l1 li lh lf
          refine ⟨st', hrun, ?_⟩
          rw [hiff, hst]
          cases b <;> simp [slotOf] <;> omega

/-- `makeMove` on a legal call (valid player, pit in range, non-empty
source pit) reduces to the sowing loop on the picked-up state. -/
theorem makeMove_unfold (bd : Board) (pit player : Int)
    (hpl : player = MAXIMIZER ∨ player = MINIMIZER)
    (hrange : 0 ≤ pit ∧ pit.toNat < (moverSide bd player).length)
    (hnz : ¬ (moverSide bd player).getD pit.toNat 0 = 0) :
    makeMove bd pit player =
      (sowLoop (2 * ((moverSide bd player).getD pit.toNat 0).toNat + 1)
        ⟨(moverSide bd player).set pit.toNat 0, otherSide bd player,
          (moverSide bd player).getD pit.toNat 0, pit.toNat + 1,
          false, false⟩).map
      fun st =>
        if st.bonus then
          (if player = MAXIMIZER then ⟨st.s0, st.s1, player⟩
            else ⟨st.s1, st.s0, player⟩, player, 0)
        else
          (if player = MAXIMIZER then ⟨st.s0, st.s1, player⟩
            else ⟨st.s1, st.s0, player⟩, -player, 1) := by
  simp only [makeMove, hpl, hrange, hnz, and_self, if_true, if_false,
    ite_true, ite_false]

theorem sides_length (bd : Board) (player : Int) (hwf : bd.WF)
    (hpl : player = MAXIMIZER ∨ player = MINIMIZER) :
    (moverSide bd player).length = 7 ∧ (otherSide bd player).length = 7 := by
  rcases hpl with rfl | rfl
  · exact ⟨by rw [moverSide, if_pos rfl]; exact hwf.1,
      by rw [otherSide, if_pos rfl]; exact hwf.2.1⟩
  · have hne : ¬ MINIMIZER = MAXIMIZER := by norm_num [MINIMIZER, MAXIMIZER]
    exact ⟨by rw [moverSide, if_neg hne]; exact hwf.2.1,
      by rw [otherSide, if_neg hne]; exact hwf.1⟩

theorem sides_nonneg (bd : Board) (player : Int) (hwf : bd.WF)
    (hpl : player = MAXIMIZER ∨ player = MINIMIZER) :
    (∀ x ∈ moverSide bd player, 0 ≤ x) ∧ (∀ x ∈ otherSide bd player, 0 ≤ x) := by
  rcases hpl with rfl | rfl
  · exact ⟨by rw [moverSide, if_pos rfl]; exact hwf.2.2.1,
      by rw [otherSide, if_pos rfl]; exact hwf.2.2.2⟩
  · have hne : ¬ MINIMIZER = MAXIMIZER := by norm_num [MINIMIZER, MAXIMIZER]
    exact ⟨by rw [moverSide, if_neg hne]; exact hwf.2.2.2,
      by rw [otherSide, if_neg hne]; exact hwf.2.2.1⟩

/-! ## The claims about `makeMove` -/

/-- Following the spec's sowing description: stones are dropped one per
slot counter-clockwise along a 13-slot cycle (the mover's six pits, the
mover's store, the opponent's six pits, the opponent's store skipped).
Starting from pit `pit`, the `hand`-th and last stone lands in the
mover's own store exactly when `(pit + hand) % 13 = 6`. -/
def lastSownInStore (pit hand : Nat) : Prop := (pit + hand) % 13 = 6

instance (pit hand : Nat) : Decidable (lastSownInStore pit hand) := by
  unfold lastSownInStore; infer_instance

/-- The result of a legal `makeMove`, componentwise, in terms of the
sowing loop's final state. -/
theorem makeMove_eq_of_sowLoop (bd : Board) (pit player : Int)
    (hpl : player = MAXIMIZER ∨ player = MINIMIZER)
    (hrange : 0 ≤ pit ∧ pit.toNat < (moverSide bd player).length)
    (hnz : ¬ (moverSide bd player).getD pit.toNat 0 = 0) (st' : SowSt)
    (hrun : sowLoop (2 * ((moverSide bd player).getD pit.toNat 0).toNat + 1)
      ⟨(moverSide bd player).set pit.toNat 0, otherSide bd player,
        (moverSide bd player).getD pit.toNat 0, pit.toNat + 1,
        false, false⟩ = some st') :
    makeMove bd pit player = some
      (if player = MAXIMIZER then ⟨st'.s0, st'.s1, player⟩
        else ⟨st'.s1, st'.s0, player⟩,
       if st'.bonus then player else -player,
       if st'.bonus then 0 else 1) := by
  rw [makeMove_unfold bd pit player hpl hrange hnz, hrun, Option.map_some']
  cases hb : st'.bonus <;> simp [hb]

/-- C2: a legal `makeMove` returns `nextplayer = player` with
`plydelta = 0` (a bonus move) exactly when the last stone sown lands in
the mover's own store; otherwise it returns the opponent with
`plydelta = 1`. -/
theorem bonus_iff_last_in_store (bd : Board) (pit player : Int)
    (hwf : bd.WF) (hpl : player = MAXIMIZER ∨ player = MINIMIZER)
    (hp0 : 0 ≤ pit) (hp5 : pit ≤ 5)
    (hh : 0 < (moverSide bd player).getD pit.toNat 0) :
    ∃ bd' next plyd, makeMove bd pit player = some (bd', next, plyd) ∧
      ((next = player ∧ plyd = 0) ↔
        lastSownInStore pit.toNat
          ((moverSide bd player).getD pit.toNat 0).toNat) ∧
      (¬ lastSownInStore pit.toNat
          ((moverSide bd player).getD pit.toNat 0).toNat →
        next = -player ∧ plyd = 1) := by
  obtain ⟨h0, h1⟩ := sides_length bd player hwf hpl
  have hpne : ¬ player = -player := by rcases hpl with rfl | rfl <;> decide
  obtain ⟨st', hrun, hbonus⟩ :=
    sowLoop_total (2 * ((moverSide bd player).getD pit.toNat 0).toNat + 1)
      ⟨(moverSide bd player).set pit.toNat 0, otherSide bd player,
        (moverSide bd player).getD pit.toNat 0, pit.toNat + 1, false, false⟩
      (by simp [h0]) h1 (by show pit.toNat + 1 ≤ 6; omega)
      (by show (0:Int) ≤ (moverSide bd player).getD pit.toNat 0; omega)
      (by show 2 * ((moverSide bd player).getD pit.toNat 0).toNat
            + cond false 1 0
            ≤ 2 * ((moverSide bd player).getD pit.toNat 0).toNat + 1
          simp only [Bool.cond_false]
          omega)
  simp only [slotOf, Bool.cond_false] at hbonus
  refine ⟨_, _, _,
    makeMove_eq_of_sowLoop bd pit player hpl ⟨hp0, by omega⟩ (by omega)
      st' hrun, ?_, ?_⟩
  · cases hb : st'.bonus
    · rw [hb] at hbonus
      have hnb : ¬ ((pit.toNat + 1 +
          ((moverSide bd player).getD pit.toNat 0).toNat - 1) % 13 = 6) := by
        intro hcon
        have : (false : Bool) = true := hbonus.mpr (Or.inr ⟨hh, hcon⟩)
        cases this
      simp only [hb, Bool.false_eq_true, if_false]
      constructor
      · intro hcon
        exact absurd hcon.2 (by norm_num)
      · intro hlast
        rw [lastSownInStore] at hlast
        exact absurd (by omega) hnb
    · rw [hb] at hbonus
      rcases hbonus.mp rfl with hcon | ⟨_, hmod⟩
      · cases hcon
      · simp only [hb, if_true]
        constructor
        · intro _
          rw [lastSownInStore]
          omega
        · intro _
          exact ⟨trivial, trivial⟩
  · intro hlast
    rw [lastSownInStore] at hlast
    cases hb : st'.bonus
    · simp only [hb, Bool.false_eq_true, if_false]
      exact ⟨trivial, trivial⟩
    · rw [hb] at hbonus
      rcases hbonus.mp rfl with hcon | ⟨_, hmod⟩
      · cases hcon
      · exact absurd (by omega : (pit.toNat +
          ((moverSide bd player).getD pit.toNat 0).toNat) % 13 = 6) hlast

/-- C8: however long the sow (including wrap-arounds), `makeMove` never
changes the opponent's store. -/
theorem opponent_store_frame (bd : Board) (pit player : Int)
    (bd' : Board) (next plyd : Int) (hwf : bd.WF)
    (h : makeMove bd pit player = some (bd', next, plyd)) :
    (otherSide bd' player).getD 6 0 = (otherSide bd player).getD 6 0 := by
  by_cases hpl : player = MAXIMIZER ∨ player = MINIMIZER
  case neg =>
    rw [makeMove, if_neg hpl] at h
    cases h
  obtain ⟨h0, h1⟩ := sides_length bd player hwf hpl
  by_cases hrange : 0 ≤ pit ∧ pit.toNat < (moverSide bd player).length
  case neg =>
    simp only [makeMove, hpl, if_true] at h
    rw [if_neg hrange] at h
    cases h
  by_cases hnz : (moverSide bd player).getD pit.toNat 0 = 0
  case pos =>
    simp only [makeMove, hpl, hrange, if_true, and_self] at h
    rw [if_pos hnz] at h
    cases h
  rw [makeMove_unfold bd pit player hpl hrange hnz] at h
  obtain ⟨st', hrun, hmap⟩ := Option.map_eq_some'.mp h
  obtain ⟨e1, _, _, _, _, _⟩ :=
    sowLoop_spec _ _ _ hrun
      (by show (0:Int) ≤ (moverSide bd player).getD pit.toNat 0
          exact nonneg_getD _ _ (sides_nonneg bd player hwf hpl).1)
      (by simp [h0]) h1
  have hbd : bd' = if player = MAXIMIZER then
      (⟨st'.s0, st'.s1, player⟩ : Board) else ⟨st'.s1, st'.s0, player⟩ := by
    cases hb : st'.bonus
    · rw [hb] at hmap
      simp only [Bool.false_eq_true, if_false, Prod.mk.injEq] at hmap
      exact hmap.1.symm
    · rw [hb] at hmap
      simp only [if_true, Prod.mk.injEq] at hmap
      exact hmap.1.symm
  rw [hbd]
  rcases hpl with rfl | rfl
  · rw [if_pos rfl]
    show st'.s1.getD 6 0 = (otherSide bd MAXIMIZER).getD 6 0
    exact e1
  · rw [if_neg (by norm_num [MINIMIZER, MAXIMIZER])]
    show st'.s1.getD 6 0 = (otherSide bd MINIMIZER).getD 6 0
    exact e1

/-- C9: calling `makeMove` with a pit outside `[0,5]`, or with an
in-range pit whose source pit is empty, never returns normally — the Go
code panics (explicitly on an empty pit; with an index-out-of-range
runtime panic for any pit outside the mover's array, and for `pit = 6`
via the sow write at index 7 on its first iteration). -/
theorem makeMove_illegal_none (bd : Board) (pit player : Int) (hwf : bd.WF)
    (hpl : player = MAXIMIZER ∨ player = MINIMIZER)
    (hbad : pit < 0 ∨ 5 < pit ∨ (moverSide bd player).getD pit.toNat 0 = 0) :
    makeMove bd pit player = none := by
  obtain ⟨h0, h1⟩ := sides_length bd player hwf hpl
  by_cases hrange : 0 ≤ pit ∧ pit.toNat < (moverSide bd player).length
  case neg =>
    simp only [makeMove, hpl, if_true]
    rw [if_neg hrange]
  by_cases hnz : (moverSide bd player).getD pit.toNat 0 = 0
  case pos =>
    simp only [makeMove, hpl, hrange, if_true, and_self]
    rw [if_pos hnz]
  have hp6 : pit = 6 := by
    rcases hbad with hb | hb | hb
    · omega
    · omega
    · exact absurd hb hnz
  subst hp6
  rw [makeMove_unfold bd 6 player hpl hrange hnz]
  have hpos : (0:Int) <
      (moverSide bd player).getD (Int.toNat 6) 0 := by
    have := nonneg_getD (moverSide bd player) (Int.toNat 6)
      (sides_nonneg bd player hwf hpl).1
    omega
  rw [sowLoop_succ _ _ (by show (0:Int) < _; exact hpos)]
  have hstep : sowStep
      ⟨(moverSide bd player).set (Int.toNat 6) 0, otherSide bd player,
        (moverSide bd player).getD (Int.toNat 6) 0, Int.toNat 6 + 1,
        false, false⟩ = none := by
    rw [sowStep, captureStep_eq,
      if_neg (by intro hcon; exact absurd hcon.2.2.1 (by omega))]
    have hnr : ¬ ((Int.toNat 6 + 1) <
        ((moverSide bd player).set (Int.toNat 6) 0).length) := by
      rw [List.length_set, h0]
      omega
    simp [dropStep, hnr, h0]
  rw [hstep]
  rfl

/-- A sow of `h` stones from cursor `i` that stays inside the mover's
own pits (landing pit `L = i + h - 1` at most 5) and meets the capture
condition there: the loop drops one stone in each pit before `L`, and
the final stone triggers the capture — the landing pit ends at 0, the
opposite pit is zeroed, and its stones plus one land in the store. -/
theorem sowLoop_nowrap (h : Nat) : ∀ (fuel : Nat) (s0 s1 : List Int)
    (i L : Nat) (b : Bool),
    s0.length = 7 → s1.length = 7 → 1 ≤ h → h ≤ fuel → i + h = L + 1 →
    L + 1 ≤ 6 → s0.getD L 0 = 0 → 0 < s1.getD (5 - L) 0 →
    ∃ st', sowLoop fuel ⟨s0, s1, (h : Int), i, false, b⟩ = some st' ∧
      st'.s0.getD L 0 = 0 ∧
      st'.s1 = s1.set (5 - L) 0 ∧
      st'.s0.getD 6 0 = s0.getD 6 0 + s1.getD (5 - L) 0 + 1 ∧
      st'.bonus = b := by
  induction h with
  | zero =>
    intro fuel s0 s1 i L b _ _ h1le
    omega
  | succ k ih =>
    intro fuel s0 s1 i L b h0 h1 _ hfuel hiL hL6 hempty hopp
    cases fuel with
    | zero => omega
    | succ f =>
      rw [sowLoop_succ _ _ (by show (0:Int) < ((k+1 : ℕ) : ℤ); omega)]
      rcases Nat.eq_zero_or_pos k with rfl | hk
      · -- the last stone: capture fires at the landing pit
        obtain rfl : i = L := by omega
        rw [sowStep, captureStep_eq,
          if_pos ⟨by norm_num, rfl, by omega, hempty, hopp⟩]
        obtain ⟨st₁, hstep⟩ :=
          dropStep_total
            ((s0.set 6 (s0.getD 6 0 + s1.getD (5 - i) 0 + 1)).set i
              (s0.getD i 0 - 1))
            (s1.set (5 - i) 0) ((0+1 : ℕ) : ℤ) i false b
            (by simp [h0]) (by simp [h1]) (by omega)
        rw [hstep, Option.some_bind]
        rcases dropStep_cases _ _ _ _ _ _ _ hstep with
          ⟨hS, _, _⟩ | ⟨hS, _, _, _⟩ | ⟨_, h6, _, _⟩ | ⟨_, _, hr, hst⟩
        · simp at hS
        · simp at hS
        · exact absurd h6 (by omega)
        · have hexit : sowLoop f st₁ = some st₁ := by
            apply sowLoop_exit
            rw [hst]
            show ((0+1 : ℕ) : ℤ) - 1 ≤ 0
            norm_num
          refine ⟨st₁, hexit, ?_, ?_, ?_, ?_⟩
          · rw [hst]
            show (((s0.set 6 (s0.getD 6 0 + s1.getD (5 - i) 0 + 1)).set i
                (s0.getD i 0 - 1)).set i
                  (((s0.set 6 (s0.getD 6 0 + s1.getD (5 - i) 0 + 1)).set i
                    (s0.getD i 0 - 1)).getD i 0 + 1)).getD i 0 = 0
            rw [getD_set_self _ _ _ (by simp [h0]; omega),
              getD_set_self _ _ _ (by simp [h0]; omega), hempty]
            ring
          · rw [hst]
          · rw [hst]
            show (((s0.set 6 (s0.getD 6 0 + s1.getD (5 - i) 0 + 1)).set i
                (s0.getD i 0 - 1)).set i
                  (((s0.set 6 (s0.getD 6 0 + s1.getD (5 - i) 0 + 1)).set i
                    (s0.getD i 0 - 1)).getD i 0 + 1)).getD 6 0
              = s0.getD 6 0 + s1.getD (5 - i) 0 + 1
            rw [getD_set_ne _ _ _ _ (by omega),
              getD_set_ne _ _ _ _ (by omega),
              getD_set_self _ _ _ (by omega)]
          · rw [hst]
      · -- not the last stone: plain drop in the mover's pit `i`
        rw [sowStep, captureStep_eq,
          if_neg (by intro hcon; have hc1 := hcon.1; omega)]
        obtain ⟨st₁, hstep⟩ :=
          dropStep_total s0 s1 ((k+1 : ℕ) : ℤ) i false b h0 h1 (by omega)
        rw [hstep, Option.some_bind]
        rcases dropStep_cases _ _ _ _ _ _ _ hstep with
          ⟨hS, _, _⟩ | ⟨hS, _, _, _⟩ | ⟨_, h6, _, _⟩ | ⟨_, _, hr, hst⟩
        · simp at hS
        · simp at hS
        · exact absurd h6 (by omega)
        · have hcast : ((k+1 : ℕ) : ℤ) - 1 = (k : ℤ) := by push_cast; ring
          rw [hcast] at hst
          obtain ⟨st', hrun', c1, c2, c3, c4⟩ :=
            ih f (s0.set i (s0.getD i 0 + 1)) s1 (i + 1) L b
              (by simp [h0]) h1 hk (by omega) (by omega) (by omega)
              (by rw [getD_set_ne _ _ _ _ (by omega)]; exact hempty) hopp
          rw [hst]
          refine ⟨st', hrun', c1, c2, ?_, c4⟩
          rw [c3, getD_set_ne _ _ _ _ (by omega)]

/-- C1 (amended): the capture rule, for sows that stay inside the
mover's own pits (`pit + stones ≤ 5`, so the sow never reaches the
mover's store).  If the landing pit is empty and the opposite pit holds
`n > 0` stones, then after `makeMove` the landing pit and the opposite
pit hold 0 and the mover's store has gained exactly `n + 1`. -/
theorem capture_correct_nowrap (bd : Board) (pit player : Int)
    (hwf : bd.WF) (hpl : player = MAXIMIZER ∨ player = MINIMIZER)
    (hp0 : 0 ≤ pit)
    (hh : 0 < (moverSide bd player).getD pit.toNat 0)
    (hnw : pit.toNat + ((moverSide bd player).getD pit.toNat 0).toNat ≤ 5)
    (hempty : (moverSide bd player).getD
      (pit.toNat + ((moverSide bd player).getD pit.toNat 0).toNat) 0 = 0)
    (hopp : 0 < (otherSide bd player).getD
      (5 - (pit.toNat + ((moverSide bd player).getD pit.toNat 0).toNat)) 0) :
    ∃ bd' next plyd, makeMove bd pit player = some (bd', next, plyd) ∧
      (moverSide bd' player).getD
        (pit.toNat + ((moverSide bd player).getD pit.toNat 0).toNat) 0 = 0 ∧
      (otherSide bd' player).getD
        (5 - (pit.toNat +
          ((moverSide bd player).getD pit.toNat 0).toNat)) 0 = 0 ∧
      (moverSide bd' player).getD 6 0 =
        (moverSide bd player).getD 6 0 +
        (otherSide bd player).getD
          (5 - (pit.toNat +
            ((moverSide bd player).getD pit.toNat 0).toNat)) 0 + 1 := by
  obtain ⟨h0, h1⟩ := sides_length bd player hwf hpl
  obtain ⟨st', hrun, c1, c2, c3, _⟩ :=
    sowLoop_nowrap ((moverSide bd player).getD pit.toNat 0).toNat
      (2 * ((moverSide bd player).getD pit.toNat 0).toNat + 1)
      ((moverSide bd player).set pit.toNat 0) (otherSide bd player)
      (pit.toNat + 1)
      (pit.toNat + ((moverSide bd player).getD pit.toNat 0).toNat) false
      (by simp [h0]) h1 (by omega) (by omega) (by omega) (by omega)
      (by rw [getD_set_ne _ _ _ _ (by omega)]; exact hempty) hopp
  have hhand : (((((moverSide bd player).getD pit.toNat 0).toNat) : ℕ) : ℤ)
      = (moverSide bd player).getD pit.toNat 0 :=
    Int.toNat_of_nonneg (le_of_lt hh)
  rw [hhand] at hrun
  have hne : ¬ MINIMIZER = MAXIMIZER := by norm_num [MINIMIZER, MAXIMIZER]
  have hms : moverSide (if player = MAXIMIZER then
      (⟨st'.s0, st'.s1, player⟩ : Board) else ⟨st'.s1, st'.s0, player⟩)
      player = st'.s0 := by
    rcases hpl with rfl | rfl
    · rw [if_pos rfl, moverSide, if_pos rfl]
    · rw [if_neg hne, moverSide, if_neg hne]
  have hos : otherSide (if player = MAXIMIZER then
      (⟨st'.s0, st'.s1, player⟩ : Board) else ⟨st'.s1, st'.s0, player⟩)
      player = st'.s1 := by
    rcases hpl with rfl | rfl
    · rw [if_pos rfl, otherSide, if_pos rfl]
    · rw [if_neg hne, otherSide, if_neg hne]
  refine ⟨_, _, _,
    makeMove_eq_of_sowLoop bd pit player hpl ⟨hp0, by omega⟩ (by omega)
      st' hrun, ?_, ?_, ?_⟩
  · rw [hms]
    exact c1
  · rw [hos, c2]
    exact getD_set_self _ _ _ (by omega)
  · rw [hms, c3, getD_set_ne _ _ _ _ (by omega)]

theorem moverSide_max (bd : Board) : moverSide bd MAXIMIZER = bd.maxpits :=
  if_pos rfl

theorem moverSide_min (bd : Board) : moverSide bd MINIMIZER = bd.minpits :=
  if_neg (by norm_num [MINIMIZER, MAXIMIZER])

theorem otherSide_max (bd : Board) : otherSide bd MAXIMIZER = bd.minpits :=
  if_pos rfl

theorem otherSide_min (bd : Board) : otherSide bd MINIMIZER = bd.maxpits :=
  if_neg (by norm_num [MINIMIZER, MAXIMIZER])

theorem nonneg7 (a b c d e f g : Int) (h : ∀ x ∈ [a,b,c,d,e,f,g], 0 ≤ x) :
    0 ≤ a ∧ 0 ≤ b ∧ 0 ≤ c ∧ 0 ≤ d ∧ 0 ≤ e ∧ 0 ≤ f ∧ 0 ≤ g :=
  ⟨h a (by simp), h b (by simp), h c (by simp), h d (by simp),
    h e (by simp), h f (by simp), h g (by simp)⟩

theorem pitSum_explicit (a b c d e f g : Int) :
    pitSum [a,b,c,d,e,f,g] = a + b + c + d + e + f := by
  simp [pitSum]
  ring

theorem clearPits_explicit (a b c d e f g : Int) :
    clearPits [a,b,c,d,e,f,g] = [0,0,0,0,0,0,g] := rfl

/-- Any successful `makeMove` keeps the board well formed and conserves
the total stone count. -/
theorem makeMove_some_spec (bd : Board) (pit player : Int) (bd' : Board)
    (next plyd : Int) (hwf : bd.WF)
    (h : makeMove bd pit player = some (bd', next, plyd)) :
    bd'.WF ∧ total bd' = total bd := by
  by_cases hpl : player = MAXIMIZER ∨ player = MINIMIZER
  case neg =>
    rw [makeMove, if_neg hpl] at h
    cases h
  obtain ⟨h0, h1⟩ := sides_length bd player hwf hpl
  obtain ⟨hn0, hn1⟩ := sides_nonneg bd player hwf hpl
  by_cases hrange : 0 ≤ pit ∧ pit.toNat < (moverSide bd player).length
  case neg =>
    simp only [makeMove, hpl, if_true] at h
    rw [if_neg hrange] at h
    cases h
  by_cases hnz : (moverSide bd player).getD pit.toNat 0 = 0
  case pos =>
    simp only [makeMove, hpl, hrange, if_true, and_self] at h
    rw [if_pos hnz] at h
    cases h
  rw [makeMove_unfold bd pit player hpl hrange hnz] at h
  obtain ⟨st', hrun, hmap⟩ := Option.map_eq_some'.mp h
  obtain ⟨_, e2, _, e4, e5, e6⟩ :=
    sowLoop_spec _ _ _ hrun
      (by show (0:Int) ≤ (moverSide bd player).getD pit.toNat 0
          exact nonneg_getD _ _ hn0)
      (by simp [h0]) h1
  have hsum : st'.s0.sum + st'.s1.sum =
      (moverSide bd player).sum + (otherSide bd player).sum := by
    have hset : ((moverSide bd player).set pit.toNat 0).sum =
        (moverSide bd player).sum + 0 -
          (moverSide bd player).getD pit.toNat 0 :=
      sum_set _ _ _ hrange.2
    have e2' : st'.s0.sum + st'.s1.sum =
        ((moverSide bd player).set pit.toNat 0).sum +
          (otherSide bd player).sum +
          (moverSide bd player).getD pit.toNat 0 := e2
    omega
  have hnn : (∀ x ∈ st'.s0, 0 ≤ x) ∧ (∀ x ∈ st'.s1, 0 ≤ x) :=
    e6 (nonneg_set _ _ _ hn0 le_rfl) hn1
  have hbd : bd' = if player = MAXIMIZER then
      (⟨st'.s0, st'.s1, player⟩ : Board) else ⟨st'.s1, st'.s0, player⟩ := by
    cases hb : st'.bonus
    · rw [hb] at hmap
      simp only [Bool.false_eq_true, if_false, Prod.mk.injEq] at hmap
      exact hmap.1.symm
    · rw [hb] at hmap
      simp only [if_true, Prod.mk.injEq] at hmap
      exact hmap.1.symm
  rcases hpl with rfl | rfl
  · rw [hbd, if_pos rfl]
    rw [moverSide_max, otherSide_max] at hsum
    refine ⟨⟨e4, e5, hnn.1, hnn.2⟩, ?_⟩
    show st'.s0.sum + st'.s1.sum = total bd
    rw [hsum, total]
  · rw [hbd, if_neg (by norm_num [MINIMIZER, MAXIMIZER])]
    rw [moverSide_min, otherSide_min] at hsum
    refine ⟨⟨e5, e4, hnn.2, hnn.1⟩, ?_⟩
    show st'.s1.sum + st'.s0.sum = total bd
    rw [total]
    omega

theorem getD6_explicit (x0 x1 x2 x3 x4 x5 x6 : Int) :
    ([x0,x1,x2,x3,x4,x5,x6] : List Int).getD 6 0 = x6 := rfl

theorem set6_explicit (x0 x1 x2 x3 x4 x5 x6 v : Int) :
    ([x0,x1,x2,x3,x4,x5,x6] : List Int).set 6 v = [x0,x1,x2,x3,x4,x5,v] := rfl

/-- `checkEnd` keeps the board well formed and preserves each side's
total (pits plus own store): the sweep only moves a side's pit stones
into that same side's store. -/
theorem checkEnd_spec (W : Int) (bd : Board) (hwf : bd.WF) :
    (checkEnd W bd).1.WF ∧
    (checkEnd W bd).1.maxpits.sum = bd.maxpits.sum ∧
    (checkEnd W bd).1.minpits.sum = bd.minpits.sum := by
  obtain ⟨mp, np, pl⟩ := bd
  obtain ⟨l1, l2, n1, n2⟩ := hwf
  obtain ⟨a, b, c, d, e, f, g, rfl⟩ := list_len7 mp l1
  obtain ⟨p, q, r, u, v, w, z, rfl⟩ := list_len7 np l2
  obtain ⟨ha, hb, hc, hd, he, hf, hg⟩ := nonneg7 _ _ _ _ _ _ _ n1
  obtain ⟨hp, hq, hr, hu, hv, hw, hz⟩ := nonneg7 _ _ _ _ _ _ _ n2
  have hboard : (checkEnd W ⟨[a,b,c,d,e,f,g], [p,q,r,u,v,w,z], pl⟩).1 =
      (⟨[a,b,c,d,e,f,g], [p,q,r,u,v,w,z], pl⟩ : Board) ∨
      (checkEnd W ⟨[a,b,c,d,e,f,g], [p,q,r,u,v,w,z], pl⟩).1 =
      (⟨[0,0,0,0,0,0, g + (a + b + c + d + e + f)],
        [0,0,0,0,0,0, z + (p + q + r + u + v + w)], pl⟩ : Board) := by
    simp only [checkEnd, clearPits_explicit, pitSum_explicit, getD6_explicit,
      set6_explicit]
    split_ifs <;> simp
  rcases hboard with hB | hB <;> rw [hB]
  · exact ⟨⟨l1, l2, n1, n2⟩, rfl, rfl⟩
  · refine ⟨⟨rfl, rfl, ?_, ?_⟩, ?_, ?_⟩
    · intro x hx
      simp only [List.mem_cons, List.not_mem_nil, or_false] at hx
      rcases hx with rfl | rfl | rfl | rfl | rfl | rfl | rfl <;> omega
    · intro x hx
      simp only [List.mem_cons, List.not_mem_nil, or_false] at hx
      rcases hx with rfl | rfl | rfl | rfl | rfl | rfl | rfl <;> omega
    · show ([0,0,0,0,0,0, g + (a + b + c + d + e + f)] : List Int).sum =
        ([a,b,c,d,e,f,g] : List Int).sum
      simp only [List.sum_cons, List.sum_nil]
      ring
    · show ([0,0,0,0,0,0, z + (p + q + r + u + v + w)] : List Int).sum =
        ([p,q,r,u,v,w,z] : List Int).sum
      simp only [List.sum_cons, List.sum_nil]
      ring

/-- The boards a game can reach: the initial board (`main` fills every
pit with the configured stones-per-pit `n` and zeroes the stores), then
alternating `makeMove` and `checkEnd` steps, exactly as the game loop
applies them. -/
inductive Reachable (W n : Int) : Board → Prop
  | init : Reachable W n ⟨List.replicate 6 n ++ [0], List.replicate 6 n ++ [0], 0⟩
  | move (bd bd' : Board) (pit player next plyd : Int) :
      Reachable W n bd → makeMove bd pit player = some (bd', next, plyd) →
      Reachable W n bd'
  | check (bd : Board) : Reachable W n bd → Reachable W n (checkEnd W bd).1

theorem reachable_inv (W n : Int) (hn : 0 ≤ n) (bd : Board)
    (h : Reachable W n bd) : bd.WF ∧ total bd = 12 * n := by
  induction h with
  | init =>
    constructor
    · refine ⟨by simp, by simp, ?_, ?_⟩ <;>
        · intro x hx
          simp only [List.mem_append, List.mem_replicate,
            List.mem_singleton] at hx
          rcases hx with ⟨_, rfl⟩ | rfl <;> omega
    · show (List.replicate 6 n ++ [0]).sum + (List.replicate 6 n ++ [0]).sum
        = 12 * n
      simp [List.sum_replicate]
      ring
  | move bd bd' pit player next plyd _ hmv ih =>
    obtain ⟨hwf', htot'⟩ := makeMove_some_spec bd pit player bd' next plyd
      ih.1 hmv
    exact ⟨hwf', htot'.trans ih.2⟩
  | check bd _ ih =>
    obtain ⟨hwf', h1, h2⟩ := checkEnd_spec W bd ih.1
    refine ⟨hwf', ?_⟩
    rw [total, h1, h2]
    exact ih.2

/-- C3: the total stone count is conserved — by every legal `makeMove`,
by `checkEnd` (whose sweep moves each side's pit stones only into that
same side's store), and hence every reachable board carries exactly
`12 * n` stones, the game's initial count. -/
theorem stone_conservation (W n : Int) :
    (∀ (bd : Board) (pit player : Int) (bd' : Board) (next plyd : Int),
      bd.WF → makeMove bd pit player = some (bd', next, plyd) →
      total bd' = total bd) ∧
    (∀ bd : Board, bd.WF →
      (checkEnd W bd).1.maxpits.sum = bd.maxpits.sum ∧
      (checkEnd W bd).1.minpits.sum = bd.minpits.sum ∧
      total (checkEnd W bd).1 = total bd) ∧
    (∀ bd : Board, 0 ≤ n → Reachable W n bd → total bd = 12 * n) := by
  refine ⟨?_, ?_, ?_⟩
  · intro bd pit player bd' next plyd hwf hmv
    exact (makeMove_some_spec bd pit player bd' next plyd hwf hmv).2
  · intro bd hwf
    obtain ⟨_, h1, h2⟩ := checkEnd_spec W bd hwf
    refine ⟨h1, h2, ?_⟩
    rw [total, h1, h2]
    rfl
  · intro bd hn hreach
    exact (reachable_inv W n hn bd hreach).2

/-- C5: on a well-formed board whose stones fit the game total
(at most `2 * W`, with `W` the winning threshold `6 × stones-per-pit`),
a store holding strictly more than `W` stones ends the game at once in
that player's favor, regardless of the pits. -/
theorem store_majority_ends (W : Int) (bd : Board) (hwf : bd.WF)
    (htot : total bd ≤ 2 * W) :
    (bd.maxpits.getD 6 0 > W → checkEnd W bd = (bd, true, MAXIMIZER)) ∧
    (bd.minpits.getD 6 0 > W → checkEnd W bd = (bd, true, MINIMIZER)) := by
  constructor
  · intro hmax
    rw [checkEnd, if_pos hmax]
  · intro hmin
    have hmaxle : ¬ bd.maxpits.getD 6 0 > W := by
      obtain ⟨mp, np, pl⟩ := bd
      obtain ⟨l1, l2, n1, n2⟩ := hwf
      obtain ⟨a, b, c, d, e, f, g, rfl⟩ := list_len7 mp l1
      obtain ⟨p, q, r, u, v, w, z, rfl⟩ := list_len7 np l2
      obtain ⟨ha, hb, hc, hd, he, hf, hg⟩ := nonneg7 _ _ _ _ _ _ _ n1
      obtain ⟨hp, hq, hr, hu, hv, hw, hz⟩ := nonneg7 _ _ _ _ _ _ _ n2
      have htot' : a + b + c + d + e + f + g + (p + q + r + u + v + w + z)
          ≤ 2 * W := by
        have := htot
        simp only [total, List.sum_cons, List.sum_nil] at this
        omega
      have hz' : z > W := hmin
      show ¬ g > W
      omega
    rw [checkEnd, if_neg hmaxle, if_pos hmin]

/-- C4 counterexample: a board whose max side's pits are all zero while
the min side holds 23 stones — but the max store (25) already exceeds
the winning threshold 24, so `checkEnd` returns early and performs no
sweep: the min side's pit 0 keeps its 23 stones and the min store stays
0 instead of receiving the former pit total. -/
theorem terminal_sweep_cex :
    (∀ i < 6, (⟨[0,0,0,0,0,0,25], [23,0,0,0,0,0,0], 0⟩ : Board).maxpits.getD
      i 0 = 0) ∧
    pitSum (⟨[0,0,0,0,0,0,25], [23,0,0,0,0,0,0], 0⟩ : Board).minpits = 23 ∧
    (23 : Int) ≠ 0 ∧
    checkEnd 24 ⟨[0,0,0,0,0,0,25], [23,0,0,0,0,0,0], 0⟩ =
      (⟨[0,0,0,0,0,0,25], [23,0,0,0,0,0,0], 0⟩, true, MAXIMIZER) ∧
    ¬ ((checkEnd 24 ⟨[0,0,0,0,0,0,25], [23,0,0,0,0,0,0], 0⟩).1.minpits.getD
      0 0 = 0) ∧
    ¬ ((checkEnd 24 ⟨[0,0,0,0,0,0,25], [23,0,0,0,0,0,0], 0⟩).1.minpits.getD
      6 0 =
      (⟨[0,0,0,0,0,0,25], [23,0,0,0,0,0,0], 0⟩ : Board).minpits.getD 6 0 +
      pitSum (⟨[0,0,0,0,0,0,25], [23,0,0,0,0,0,0], 0⟩ : Board).minpits) := by
  decide

/-- C4 (amended): the terminal sweep as claimed, provided neither store
already exceeds the winning threshold `W` (otherwise `checkEnd` returns
early without sweeping).  If one side's six pits are all zero and the
other side's pits hold a nonzero total, the game is reported ended, the
non-empty side's pits are swept into its own store, and the empty side
keeps its pits at zero and its store unchanged. -/
theorem terminal_sweep_correct (W : Int) (bd : Board) (hwf : bd.WF)
    (hmaxle : bd.maxpits.getD 6 0 ≤ W) (hminle : bd.minpits.getD 6 0 ≤ W) :
    ((∀ i < 6, bd.maxpits.getD i 0 = 0) → pitSum bd.minpits ≠ 0 →
      (checkEnd W bd).2.1 = true ∧
      (∀ i < 6, (checkEnd W bd).1.minpits.getD i 0 = 0) ∧
      (checkEnd W bd).1.minpits.getD 6 0 =
        bd.minpits.getD 6 0 + pitSum bd.minpits ∧
      (∀ i < 6, (checkEnd W bd).1.maxpits.getD i 0 = 0) ∧
      (checkEnd W bd).1.maxpits.getD 6 0 = bd.maxpits.getD 6 0) ∧
    ((∀ i < 6, bd.minpits.getD i 0 = 0) → pitSum bd.maxpits ≠ 0 →
      (checkEnd W bd).2.1 = true ∧
      (∀ i < 6, (checkEnd W bd).1.maxpits.getD i 0 = 0) ∧
      (checkEnd W bd).1.maxpits.getD 6 0 =
        bd.maxpits.getD 6 0 + pitSum bd.maxpits ∧
      (∀ i < 6, (checkEnd W bd).1.minpits.getD i 0 = 0) ∧
      (checkEnd W bd).1.minpits.getD 6 0 = bd.minpits.getD 6 0) := by
  obtain ⟨mp, np, pl⟩ := bd
  obtain ⟨l1, l2, n1, n2⟩ := hwf
  obtain ⟨a, b, c, d, e, f, g, rfl⟩ := list_len7 mp l1
  obtain ⟨p, q, r, u, v, w, z, rfl⟩ := list_len7 np l2
  have hgle : ¬ g > W := by
    have : g ≤ W := hmaxle
    omega
  have hzle : ¬ z > W := by
    have : z ≤ W := hminle
    omega
  have hB : ∀ hcond : p + q + r + u + v + w = 0 ∨ a + b + c + d + e + f = 0,
      checkEnd W ⟨[a,b,c,d,e,f,g], [p,q,r,u,v,w,z], pl⟩ =
      (⟨[0,0,0,0,0,0, g + (a + b + c + d + e + f)],
        [0,0,0,0,0,0, z + (p + q + r + u + v + w)], pl⟩, true,
        if (g + (a + b + c + d + e + f)) - (z + (p + q + r + u + v + w)) > 0
          then MAXIMIZER
        else if (g + (a + b + c + d + e + f)) -
            (z + (p + q + r + u + v + w)) < 0
          then MINIMIZER
        else (g + (a + b + c + d + e + f)) -
          (z + (p + q + r + u + v + w))) := by
    intro hcond
    simp only [checkEnd, clearPits_explicit, pitSum_explicit, getD6_explicit,
      set6_explicit]
    rw [if_neg hgle, if_neg hzle, if_pos hcond]
  constructor
  · intro hzero hnz
    have ha0 : a = 0 := hzero 0 (by norm_num)
    have hb0 : b = 0 := hzero 1 (by norm_num)
    have hc0 : c = 0 := hzero 2 (by norm_num)
    have hd0 : d = 0 := hzero 3 (by norm_num)
    have he0 : e = 0 := hzero 4 (by norm_num)
    have hf0 : f = 0 := hzero 5 (by norm_num)
    rw [hB (Or.inr (by omega))]
    refine ⟨rfl, ?_, ?_, ?_, ?_⟩
    · intro i hi
      interval_cases i <;> rfl
    · show z + (p + q + r + u + v + w) =
        z + pitSum [p,q,r,u,v,w,z]
      rw [pitSum_explicit]
    · intro i hi
      interval_cases i <;> rfl
    · show g + (a + b + c + d + e + f) = g
      omega
  · intro hzero hnz
    have hp0 : p = 0 := hzero 0 (by norm_num)
    have hq0 : q = 0 := hzero 1 (by norm_num)
    have hr0 : r = 0 := hzero 2 (by norm_num)
    have hu0 : u = 0 := hzero 3 (by norm_num)
    have hv0 : v = 0 := hzero 4 (by norm_num)
    have hw0 : w = 0 := hzero 5 (by norm_num)
    rw [hB (Or.inl (by omega))]
    refine ⟨rfl, ?_, ?_, ?_, ?_⟩
    · intro i hi
      interval_cases i <;> rfl
    · show g + (a + b + c + d + e + f) =
        g + pitSum [a,b,c,d,e,f,g]
      rw [pitSum_explicit]
    · intro i hi
      interval_cases i <;> rfl
    · show z + (p + q + r + u + v + w) = z
      omega

theorem checkEnd_max_eq (W a b c d e f g p q r u v w z pl : Int)
    (hg : g > W) :
    checkEnd W ⟨[a,b,c,d,e,f,g], [p,q,r,u,v,w,z], pl⟩ =
      (⟨[a,b,c,d,e,f,g], [p,q,r,u,v,w,z], pl⟩, true, MAXIMIZER) := by
  rw [checkEnd,
    if_pos (show ([a,b,c,d,e,f,g] : List Int).getD 6 0 > W from hg)]

theorem checkEnd_min_eq (W a b c d e f g p q r u v w z pl : Int)
    (hg : ¬ g > W) (hz : z > W) :
    checkEnd W ⟨[a,b,c,d,e,f,g], [p,q,r,u,v,w,z], pl⟩ =
      (⟨[a,b,c,d,e,f,g], [p,q,r,u,v,w,z], pl⟩, true, MINIMIZER) := by
  rw [checkEnd,
    if_neg (show ¬ ([a,b,c,d,e,f,g] : List Int).getD 6 0 > W from hg),
    if_pos (show ([p,q,r,u,v,w,z] : List Int).getD 6 0 > W from hz)]

theorem checkEnd_sweep_eq (W a b c d e f g p q r u v w z pl : Int)
    (hg : ¬ g > W) (hz : ¬ z > W)
    (hcond : p + q + r + u + v + w = 0 ∨ a + b + c + d + e + f = 0) :
    checkEnd W ⟨[a,b,c,d,e,f,g], [p,q,r,u,v,w,z], pl⟩ =
      (⟨[0,0,0,0,0,0, g + (a + b + c + d + e + f)],
        [0,0,0,0,0,0, z + (p + q + r + u + v + w)], pl⟩, true,
        if (g + (a + b + c + d + e + f)) - (z + (p + q + r + u + v + w)) > 0
          then MAXIMIZER
        else if (g + (a + b + c + d + e + f)) -
            (z + (p + q + r + u + v + w)) < 0
          then MINIMIZER
        else (g + (a + b + c + d + e + f)) -
          (z + (p + q + r + u + v + w))) := by
  simp only [checkEnd, clearPits_explicit, pitSum_explicit, getD6_explicit,
    set6_explicit]
  rw [if_neg hg, if_neg hz, if_pos hcond]

theorem checkEnd_none_eq (W a b c d e f g p q r u v w z pl : Int)
    (hg : ¬ g > W) (hz : ¬ z > W)
    (hcond : ¬ (p + q + r + u + v + w = 0 ∨ a + b + c + d + e + f = 0)) :
    checkEnd W ⟨[a,b,c,d,e,f,g], [p,q,r,u,v,w,z], pl⟩ =
      (⟨[a,b,c,d,e,f,g], [p,q,r,u,v,w,z], pl⟩, false, UNSET) := by
  simp only [checkEnd, clearPits_explicit, pitSum_explicit, getD6_explicit,
    set6_explicit]
  rw [if_neg hg, if_neg hz, if_neg hcond]

/-- C10: `checkEnd` is idempotent — run on its own result, it returns
the same `(board, ended, winner)` triple; in particular the destructive
sweep adds nothing on a repeated call. -/
theorem checkEnd_idempotent (W : Int) (bd : Board) (hwf : bd.WF) :
    checkEnd W (checkEnd W bd).1 = checkEnd W bd := by
  obtain ⟨mp, np, pl⟩ := bd
  obtain ⟨l1, l2, n1, n2⟩ := hwf
  obtain ⟨a, b, c, d, e, f, g, rfl⟩ := list_len7 mp l1
  obtain ⟨p, q, r, u, v, w, z, rfl⟩ := list_len7 np l2
  obtain ⟨ha, hb, hc, hd, he, hf, hg⟩ := nonneg7 _ _ _ _ _ _ _ n1
  obtain ⟨hp, hq, hr, hu, hv, hw, hz⟩ := nonneg7 _ _ _ _ _ _ _ n2
  by_cases h1 : g > W
  · rw [checkEnd_max_eq W a b c d e f g p q r u v w z pl h1]
    exact checkEnd_max_eq W a b c d e f g p q r u v w z pl h1
  · by_cases h2 : z > W
    · rw [checkEnd_min_eq W a b c d e f g p q r u v w z pl h1 h2]
      exact checkEnd_min_eq W a b c d e f g p q r u v w z pl h1 h2
    · by_cases h3 : p + q + r + u + v + w = 0 ∨ a + b + c + d + e + f = 0
      · rw [checkEnd_sweep_eq W a b c d e f g p q r u v w z pl h1 h2 h3]
        show checkEnd W ⟨[0,0,0,0,0,0, g + (a + b + c + d + e + f)],
          [0,0,0,0,0,0, z + (p + q + r + u + v + w)], pl⟩ = _
        by_cases h4 : g + (a + b + c + d + e + f) > W
        · rw [checkEnd_max_eq W 0 0 0 0 0 0 (g + (a + b + c + d + e + f))
            0 0 0 0 0 0 (z + (p + q + r + u + v + w)) pl h4]
          have hmin0 : p + q + r + u + v + w = 0 := by
            rcases h3 with h3 | h3
            · exact h3
            · omega
          rw [if_pos (show (g + (a + b + c + d + e + f)) -
              (z + (p + q + r + u + v + w)) > 0 by omega)]
        · by_cases h5 : z + (p + q + r + u + v + w) > W
          · rw [checkEnd_min_eq W 0 0 0 0 0 0 (g + (a + b + c + d + e + f))
              0 0 0 0 0 0 (z + (p + q + r + u + v + w)) pl h4 h5]
            have hmax0 : a + b + c + d + e + f = 0 := by
              rcases h3 with h3 | h3
              · omega
              · exact h3
            rw [if_neg (show ¬ ((g + (a + b + c + d + e + f)) -
                (z + (p + q + r + u + v + w)) > 0) by omega),
              if_pos (show (g + (a + b + c + d + e + f)) -
                (z + (p + q + r + u + v + w)) < 0 by omega)]
          · rw [checkEnd_sweep_eq W 0 0 0 0 0 0
              (g + (a + b + c + d + e + f))
              0 0 0 0 0 0 (z + (p + q + r + u + v + w)) pl h4 h5
              (Or.inl (by norm_num))]
            norm_num
      · rw [checkEnd_none_eq W a b c d e f g p q r u v w z pl h1 h2 h3]
        exact checkEnd_none_eq W a b c d e f g p q r u v w z pl h1 h2 h3

/-! ## Alpha-beta search -/

/-- The static value function inlined at the top of Go `alphaBeta`:
store difference less ply depth, plus a weighted share of the seeds in
the computer's pits (Go integer division truncates toward zero, as
`Int.div` does). -/
def staticValue (bd : Board) (ply : Int) : Int :=
  (bd.maxpits.getD 6 0 - bd.minpits.getD 6 0) - ply +
    Int.div (bd.maxpits.getD 0 0 + bd.maxpits.getD 1 0 + bd.maxpits.getD 2 0 +
      bd.maxpits.getD 3 0 + bd.maxpits.getD 4 0 + 2 * bd.maxpits.getD 5 0) 3

/-- A pending computation of Go `alphaBeta`: either a node entry (the
depth test, then the switch on the player), or the `for pit, stones :=
range` scan over the six pits with the running `value`, `alpha` and
`beta` of the loop. -/
inductive ABCall where
  | entry (bd : Board) (ply player alpha beta : Int)
  | scan (bd : Board) (ply player alpha beta value : Int) (pits : List Nat)

/-- Go `alphaBeta`, fueled (bonus-move chains recurse without advancing
`ply`, so structural recursion needs explicit fuel; `none` = out of
fuel, never reached with enough fuel on finite games).  Each child:
copy the board, `makeMove`, then `checkEnd` — a terminal child scores
`WIN - ply` / `LOSS + ply` / `0`, otherwise recurse with `ply +
plydelta` and `nextplayer`.  Alpha (maximizer) or beta (minimizer) is
updated, `beta <= alpha` returns `value` early, and after the scan the
function returns the `value` left by the last examined child. -/
def abRun (W maxPly : Int) : Nat → ABCall → Option Int
  | 0, _ => none
  | fuel + 1, ABCall.entry bd ply player alpha beta =>
    if ply > maxPly then some (staticValue bd ply)
    else if player = MAXIMIZER ∨ player = MINIMIZER then
      abRun W maxPly fuel
        (ABCall.scan bd ply player alpha beta UNSET [0, 1, 2, 3, 4, 5])
    else some UNSET
  | fuel + 1, ABCall.scan bd ply player alpha beta value pits =>
    match pits with
    | [] => some value
    | pit :: rest =>
      let side := if player = MAXIMIZER then bd.maxpits else bd.minpits
      if side.getD pit 0 = 0 then
        abRun W maxPly fuel (ABCall.scan bd ply player alpha beta value rest)
      else
        match makeMove bd (pit : Int) player with
        | none => none
        | some (bd2, nextplayer, plydelta) =>
          let ce := checkEnd W bd2
          let v? :=
            if ce.2.1 then
              some (if ce.2.2 = MAXIMIZER then WIN - ply
                else if ce.2.2 = MINIMIZER then LOSS + ply else 0)
            else
              abRun W maxPly fuel
                (ABCall.entry bd2 (ply + plydelta) nextplayer alpha beta)
          match v? with
          | none => none
          | some v =>
            if player = MAXIMIZER then
              let alpha' := if v > alpha then v else alpha
              if beta ≤ alpha' then some v
              else abRun W maxPly fuel
                (ABCall.scan bd ply player alpha' beta v rest)
            else
              let beta' := if v < beta then v else beta
              if beta' ≤ alpha then some v
              else abRun W maxPly fuel
                (ABCall.scan bd ply player alpha beta' v rest)

/-- Go `alphaBeta(bd, ply, player, alpha, beta)` with fuel. -/
def alphaBeta (W maxPly : Int) (fuel : Nat) (bd : Board)
    (ply player alpha beta : Int) : Option Int :=
  abRun W maxPly fuel (ABCall.entry bd ply player alpha beta)

/-- A pending computation of the reference minimax (below). -/
inductive MMCall where
  | entry (bd : Board) (ply player : Int)
  | scan (bd : Board) (ply player value : Int) (pits : List Nat)

/-- Modelled from the claim's words: a plain unpruned depth-limited
minimax over the same move transitions as `alphaBeta` — same terminal
scoring, same horizon evaluation, same bonus-move ply handling — that
takes the maximum of the children's values for `MAXIMIZER` (starting
from the `-infinity` sentinel `2 * LOSS`) and the minimum for
`MINIMIZER` (starting from `2 * WIN`). -/
def mmRun (W maxPly : Int) : Nat → MMCall → Option Int
  | 0, _ => none
  | fuel + 1, MMCall.entry bd ply player =>
    if ply > maxPly then some (staticValue bd ply)
    else if player = MAXIMIZER ∨ player = MINIMIZER then
      mmRun W maxPly fuel
        (MMCall.scan bd ply player
          (if player = MAXIMIZER then 2 * LOSS else 2 * WIN)
          [0, 1, 2, 3, 4, 5])
    else some UNSET
  | fuel + 1, MMCall.scan bd ply player value pits =>
    match pits with
    | [] => some value
    | pit :: rest =>
      let side := if player = MAXIMIZER then bd.maxpits else bd.minpits
      if side.getD pit 0 = 0 then
        mmRun W maxPly fuel (MMCall.scan bd ply player value rest)
      else
        match makeMove bd (pit : Int) player with
        | none => none
        | some (bd2, nextplayer, plydelta) =>
          let ce := checkEnd W bd2
          let v? :=
            if ce.2.1 then
              some (if ce.2.2 = MAXIMIZER then WIN - ply
                else if ce.2.2 = MINIMIZER then LOSS + ply else 0)
            else
              mmRun W maxPly fuel (MMCall.entry bd2 (ply + plydelta) nextplayer)
          match v? with
          | none => none
          | some v =>
            mmRun W maxPly fuel
              (MMCall.scan bd ply player
                (if player = MAXIMIZER then (if v > value then v else value)
                  else (if v < value then v else value)) rest)

/-- The reference depth-limited minimax per the claim. -/
def minimax (W maxPly : Int) (fuel : Nat) (bd : Board)
    (ply player : Int) : Option Int :=
  mmRun W maxPly fuel (MMCall.entry bd ply player)

/-- C6 failing input: on this board (`W = 24`, `maxPly = 0`,
`MAXIMIZER` to move) the first legal pit (0) captures and its child
evaluates to 1, while the last legal pit (4) leads to a child worth 0.
With the full window no cutoff fires, so a correct alpha-beta must
return the maximum 1 — but Go `alphaBeta` ends its scan with
`return value`, the value of the *last* examined child, and yields 0.
The `value`/`alpha` slip makes the full-window call differ from plain
minimax. -/
theorem alphaBeta_last_child_value :
    alphaBeta 24 0 20 ⟨[1,0,0,0,1,0,0], [0,4,4,4,1,4,0], 0⟩ 0 MAXIMIZER
      (2 * LOSS) (2 * WIN) = some 0 ∧
    minimax 24 0 20 ⟨[1,0,0,0,1,0,0], [0,4,4,4,1,4,0], 0⟩ 0 MAXIMIZER =
      some 1 ∧
    ¬ ((0 : Int) = 1) := by
  constructor
  · rfl
  · exact ⟨rfl, by norm_num⟩

/-! ## The most-visits scan of `chooseMonteCarlo` -/

/-- The fields of the Go MCTS `Node` that `chooseMonteCarlo`'s final
selection reads: the move label and the visit counter.  (The win tally
is a `float64` and only feeds the returned percentage, never the move
choice; the tree-structural fields feed the float-guided iteration
loop, which is outside this integer core.) -/
structure Node where
  move : Int
  visits : Int
deriving Repr, DecidableEq

/-- The final scan of `chooseMonteCarlo`:
`bestChild := root.childNodes[0]; mostVisits := bestChild.visits;
for _, c := range root.childNodes[1:] { if c.visits > mostVisits
{ bestChild = c; mostVisits = bestChild.visits } }` — `childNodes` is
in `addChild` append order, i.e. expansion order. -/
def bestVisited (first : Node) (rest : List Node) : Node :=
  (rest.foldl
    (fun bm c => if c.visits > bm.2 then (c, c.visits) else bm)
    (first, first.visits)).1

theorem bestVisited_cons (first c : Node) (rest : List Node) :
    bestVisited first (c :: rest) =
      bestVisited (if c.visits > first.visits then c else first) rest := by
  rw [bestVisited, bestVisited, List.foldl_cons]
  by_cases h : c.visits > first.visits <;> simp [h]

/-- C7 (amended): the scan returns the child with the maximal visit
count that appears *earliest in the child list* — i.e. ties are broken
by expansion order (the order `addChild` appended them, which follows
the random untried-move draws), not by pit index. -/
theorem bestVisited_first_max (first : Node) (rest : List Node) :
    ∃ k, (first :: rest).get? k = some (bestVisited first rest) ∧
      (∀ c ∈ first :: rest, c.visits ≤ (bestVisited first rest).visits) ∧
      ∀ j < k, ∀ c, (first :: rest).get? j = some c →
        c.visits < (bestVisited first rest).visits := by
  induction rest generalizing first with
  | nil =>
    refine ⟨0, rfl, ?_, ?_⟩
    · intro c hc
      simp only [List.mem_singleton] at hc
      subst hc
      exact le_refl _
    · intro j hj
      omega
  | cons c rest ih =>
    rw [bestVisited_cons]
    by_cases h : c.visits > first.visits
    · rw [if_pos h]
      obtain ⟨k, hk, hmax, hbefore⟩ := ih c
      refine ⟨k + 1, hk, ?_, ?_⟩
      · intro x hx
        rcases List.mem_cons.mp hx with rfl | hx
        · calc x.visits ≤ c.visits := le_of_lt h
            _ ≤ _ := hmax c (List.mem_cons_self c rest)
        · exact hmax x hx
      · intro j hj x hx
        cases j with
        | zero =>
          simp only [List.get?] at hx
          cases hx
          calc first.visits < c.visits := h
            _ ≤ _ := hmax c (List.mem_cons_self c rest)
        | succ j' =>
          exact hbefore j' (by omega) x hx
    · rw [if_neg h]
      obtain ⟨k, hk, hmax, hbefore⟩ := ih first
      have hcle : c.visits ≤ first.visits := by omega
      cases k with
      | zero =>
        refine ⟨0, ?_, ?_, ?_⟩
        · simpa using hk
        · intro x hx
          rcases List.mem_cons.mp hx with rfl | hx
          · exact hmax x (List.mem_cons_self x rest)
          · rcases List.mem_cons.mp hx with rfl | hx
            · exact le_trans hcle (hmax first (List.mem_cons_self first rest))
            · exact hmax x (List.mem_cons_of_mem first hx)
        · intro j hj
          omega
      | succ k' =>
        refine ⟨k' + 2, hk, ?_, ?_⟩
        · intro x hx
          rcases List.mem_cons.mp hx with rfl | hx
          · exact hmax x (List.mem_cons_self x rest)
          · rcases List.mem_cons.mp hx with rfl | hx
            · exact le_trans hcle (hmax first (List.mem_cons_self first rest))
            · exact hmax x (List.mem_cons_of_mem first hx)
        · intro j hj x hx
          cases j with
          | zero =>
            simp only [List.get?] at hx
            cases hx
            exact hbefore 0 (by omega) first rfl
          | succ j' =>
            cases j' with
            | zero =>
              simp only [List.get?] at hx
              cases hx
              exact lt_of_le_of_lt hcle (hbefore 0 (by omega) first rfl)
            | succ j'' =>
              exact hbefore (j'' + 1) (by omega) x hx

/-- C7 counterexample: two root children with equal visit counts listed
in expansion order `[move 3, move 1]` — the scan returns move 3, the
first in list order, not the lowest pit index 1. -/
theorem mostVisited_tiebreak_cex :
    (⟨3, 5⟩ : Node).visits = (⟨1, 5⟩ : Node).visits ∧
    (bestVisited ⟨3, 5⟩ [⟨1, 5⟩]).move = 3 ∧
    ¬ ((bestVisited ⟨3, 5⟩ [⟨1, 5⟩]).move = 1) := by
  decide

theorem bestVisited_first_max_witness :
    ∃ k, ([⟨3, 5⟩, ⟨1, 5⟩] : List Node).get? k =
        some (bestVisited ⟨3, 5⟩ [⟨1, 5⟩]) ∧
      (∀ c ∈ ([⟨3, 5⟩, ⟨1, 5⟩] : List Node),
        c.visits ≤ (bestVisited ⟨3, 5⟩ [⟨1, 5⟩]).visits) ∧
      ∀ j < k, ∀ c, ([⟨3, 5⟩, ⟨1, 5⟩] : List Node).get? j = some c →
        c.visits < (bestVisited ⟨3, 5⟩ [⟨1, 5⟩]).visits :=
  bestVisited_first_max ⟨3, 5⟩ [⟨1, 5⟩]

/-- C1 counterexample: pit 0 holds 13 stones, so the sow wraps the
whole board — it passes once through the mover's store and the final
stone lands back in pit 0, which held 0 since the pickup; the opposite
pit (min 5) held 2 stones before the move and 3 immediately before the
final stone landed.  All of the claim's capture hypotheses hold, and
the landing pit and opposite pit do end at 0 — but the store rises from
0 to 5, not by `n + 1` under either reading of `n` (2+1 = 3 or
3+1 = 4), because the sow itself banked one stone in the store. -/
theorem capture_store_gain_cex :
    makeMove ⟨[13,0,0,0,0,0,0], [0,0,0,0,0,2,0], 0⟩ 0 MAXIMIZER =
      some (⟨[0,1,1,1,1,1,5], [1,1,1,1,1,0,0], 1⟩, MINIMIZER, 1) ∧
    ¬ ((5 : Int) - 0 = 2 + 1) ∧ ¬ ((5 : Int) - 0 = 3 + 1) := by
  have e1 : sowLoop 27 ⟨[0,0,0,0,0,0,0], [0,0,0,0,0,2,0], 13, 1, false, false⟩ =
      sowLoop 26 ⟨[0,1,0,0,0,0,0], [0,0,0,0,0,2,0], 12, 2, false, false⟩ :=
    sowLoop_of_step 26 _ _ (by decide) rfl
  have e2 : sowLoop 26 ⟨[0,1,0,0,0,0,0], [0,0,0,0,0,2,0], 12, 2, false, false⟩ =
      sowLoop 25 ⟨[0,1,1,0,0,0,0], [0,0,0,0,0,2,0], 11, 3, false, false⟩ :=
    sowLoop_of_step 25 _ _ (by decide) rfl
  have e3 : sowLoop 25 ⟨[0,1,1,0,0,0,0], [0,0,0,0,0,2,0], 11, 3, false, false⟩ =
      sowLoop 24 ⟨[0,1,1,1,0,0,0], [0,0,0,0,0,2,0], 10, 4, false, false⟩ :=
    sowLoop_of_step 24 _ _ (by decide) rfl
  have e4 : sowLoop 24 ⟨[0,1,1,1,0,0,0], [0,0,0,0,0,2,0], 10, 4, false, false⟩ =
      sowLoop 23 ⟨[0,1,1,1,1,0,0], [0,0,0,0,0,2,0], 9, 5, false, false⟩ :=
    sowLoop_of_step 23 _ _ (by decide) rfl
  have e5 : sowLoop 23 ⟨[0,1,1,1,1,0,0], [0,0,0,0,0,2,0], 9, 5, false, false⟩ =
      sowLoop 22 ⟨[0,1,1,1,1,1,0], [0,0,0,0,0,2,0], 8, 6, false, false⟩ :=
    sowLoop_of_step 22 _ _ (by decide) rfl
  have e6 : sowLoop 22 ⟨[0,1,1,1,1,1,0], [0,0,0,0,0,2,0], 8, 6, false, false⟩ =
      sowLoop 21 ⟨[0,1,1,1,1,1,1], [0,0,0,0,0,2,0], 7, 0, true, false⟩ :=
    sowLoop_of_step 21 _ _ (by decide) rfl
  have e7 : sowLoop 21 ⟨[0,1,1,1,1,1,1], [0,0,0,0,0,2,0], 7, 0, true, false⟩ =
      sowLoop 20 ⟨[0,1,1,1,1,1,1], [1,0,0,0,0,2,0], 6, 1, true, false⟩ :=
    sowLoop_of_step 20 _ _ (by decide) rfl
  have e8 : sowLoop 20 ⟨[0,1,1,1,1,1,1], [1,0,0,0,0,2,0], 6, 1, true, false⟩ =
      sowLoop 19 ⟨[0,1,1,1,1,1,1], [1,1,0,0,0,2,0], 5, 2, true, false⟩ :=
    sowLoop_of_step 19 _ _ (by decide) rfl
  have e9 : sowLoop 19 ⟨[0,1,1,1,1,1,1], [1,1,0,0,0,2,0], 5, 2, true, false⟩ =
      sowLoop 18 ⟨[0,1,1,1,1,1,1], [1,1,1,0,0,2,0], 4, 3, true, false⟩ :=
    sowLoop_of_step 18 _ _ (by decide) rfl
  have e10 : sowLoop 18 ⟨[0,1,1,1,1,1,1], [1,1,1,0,0,2,0], 4, 3, true, false⟩ =
      sowLoop 17 ⟨[0,1,1,1,1,1,1], [1,1,1,1,0,2,0], 3, 4, true, false⟩ :=
    sowLoop_of_step 17 _ _ (by decide) rfl
  have e11 : sowLoop 17 ⟨[0,1,1,1,1,1,1], [1,1,1,1,0,2,0], 3, 4, true, false⟩ =
      sowLoop 16 ⟨[0,1,1,1,1,1,1], [1,1,1,1,1,2,0], 2, 5, true, false⟩ :=
    sowLoop_of_step 16 _ _ (by decide) rfl
  have e12 : sowLoop 16 ⟨[0,1,1,1,1,1,1], [1,1,1,1,1,2,0], 2, 5, true, false⟩ =
      sowLoop 15 ⟨[0,1,1,1,1,1,1], [1,1,1,1,1,3,0], 1, 6, true, false⟩ :=
    sowLoop_of_step 15 _ _ (by decide) rfl
  have e13 : sowLoop 15 ⟨[0,1,1,1,1,1,1], [1,1,1,1,1,3,0], 1, 6, true, false⟩ =
      sowLoop 14 ⟨[0,1,1,1,1,1,1], [1,1,1,1,1,3,0], 1, 0, false, false⟩ :=
    sowLoop_of_step 14 _ _ (by decide) rfl
  have e14 : sowLoop 14 ⟨[0,1,1,1,1,1,1], [1,1,1,1,1,3,0], 1, 0, false, false⟩ =
      sowLoop 13 ⟨[0,1,1,1,1,1,5], [1,1,1,1,1,0,0], 0, 1, false, false⟩ :=
    sowLoop_of_step 13 _ _ (by decide) rfl
  have e15 : sowLoop 13 ⟨[0,1,1,1,1,1,5], [1,1,1,1,1,0,0], 0, 1, false, false⟩ =
      some ⟨[0,1,1,1,1,1,5], [1,1,1,1,1,0,0], 0, 1, false, false⟩ :=
    sowLoop_exit 13 _ (by decide)
  have hrun := e1.trans (e2.trans (e3.trans (e4.trans (e5.trans (e6.trans
    (e7.trans (e8.trans (e9.trans (e10.trans (e11.trans (e12.trans
    (e13.trans (e14.trans e15)))))))))))))
  have h := makeMove_eq_of_sowLoop ⟨[13,0,0,0,0,0,0], [0,0,0,0,0,2,0], 0⟩
    0 MAXIMIZER (Or.inl rfl) (by decide) (by decide) _ hrun
  refine ⟨h.trans ?_, by norm_num, by norm_num⟩
  rfl

theorem capture_correct_nowrap_witness :
    (⟨[0,2,0,0,0,0,0], [1,1,3,1,1,1,0], 0⟩ : Board).WF ∧
    (0 : Int) < (moverSide ⟨[0,2,0,0,0,0,0], [1,1,3,1,1,1,0], 0⟩
      MAXIMIZER).getD 1 0 ∧
    ∃ bd' next plyd,
      makeMove ⟨[0,2,0,0,0,0,0], [1,1,3,1,1,1,0], 0⟩ 1 MAXIMIZER =
        some (bd', next, plyd) ∧
      (moverSide bd' MAXIMIZER).getD 3 0 = 0 ∧
      (otherSide bd' MAXIMIZER).getD 2 0 = 0 ∧
      (moverSide bd' MAXIMIZER).getD 6 0 =
        (moverSide ⟨[0,2,0,0,0,0,0], [1,1,3,1,1,1,0], 0⟩ MAXIMIZER).getD 6 0 +
        (otherSide ⟨[0,2,0,0,0,0,0], [1,1,3,1,1,1,0], 0⟩ MAXIMIZER).getD 2 0 +
        1 :=
  ⟨by decide, by decide,
    capture_correct_nowrap ⟨[0,2,0,0,0,0,0], [1,1,3,1,1,1,0], 0⟩ 1 MAXIMIZER
      (by decide) (Or.inl rfl) (by decide) (by decide) (by decide) (by decide)
      (by decide)⟩

theorem bonus_iff_last_in_store_witness :
    (⟨[4,4,4,4,4,4,0], [4,4,4,4,4,4,0], 0⟩ : Board).WF ∧
    ∃ bd' next plyd,
      makeMove ⟨[4,4,4,4,4,4,0], [4,4,4,4,4,4,0], 0⟩ 2 MAXIMIZER =
        some (bd', next, plyd) ∧
      ((next = MAXIMIZER ∧ plyd = 0) ↔ lastSownInStore 2 4) ∧
      (¬ lastSownInStore 2 4 → next = -MAXIMIZER ∧ plyd = 1) :=
  ⟨by decide,
    bonus_iff_last_in_store ⟨[4,4,4,4,4,4,0], [4,4,4,4,4,4,0], 0⟩ 2 MAXIMIZER
      (by decide) (Or.inl rfl) (by decide) (by decide) (by decide)⟩

theorem opponent_store_frame_witness :
    (otherSide ⟨[4,4,0,5,5,5,1], [4,4,4,4,4,4,0], 1⟩ MAXIMIZER).getD 6 0 =
      (otherSide ⟨[4,4,4,4,4,4,0], [4,4,4,4,4,4,0], 0⟩ MAXIMIZER).getD 6 0 :=
  opponent_store_frame ⟨[4,4,4,4,4,4,0], [4,4,4,4,4,4,0], 0⟩ 2 MAXIMIZER
    ⟨[4,4,0,5,5,5,1], [4,4,4,4,4,4,0], 1⟩ MAXIMIZER 0 (by decide) rfl

theorem makeMove_illegal_none_witness :
    makeMove ⟨[4,4,4,4,4,4,0], [4,4,4,4,4,4,0], 0⟩ 9 MAXIMIZER = none ∧
    makeMove ⟨[4,4,4,4,4,4,5], [4,4,4,4,4,4,0], 0⟩ 6 MAXIMIZER = none :=
  ⟨makeMove_illegal_none ⟨[4,4,4,4,4,4,0], [4,4,4,4,4,4,0], 0⟩ 9 MAXIMIZER
      (by decide) (Or.inl rfl) (by norm_num),
    makeMove_illegal_none ⟨[4,4,4,4,4,4,5], [4,4,4,4,4,4,0], 0⟩ 6 MAXIMIZER
      (by decide) (Or.inl rfl) (by norm_num)⟩

theorem stone_conservation_witness :
    total ⟨[4,4,0,5,5,5,1], [4,4,4,4,4,4,0], 1⟩ =
      total ⟨[4,4,4,4,4,4,0], [4,4,4,4,4,4,0], 0⟩ ∧
    total (checkEnd 24 ⟨[0,0,0,0,0,0,20], [3,0,0,0,4,0,21], 0⟩).1 =
      total ⟨[0,0,0,0,0,0,20], [3,0,0,0,4,0,21], 0⟩ ∧
    total ⟨List.replicate 6 4 ++ [0], List.replicate 6 4 ++ [0], 0⟩ =
      12 * 4 :=
  ⟨(stone_conservation 24 4).1 ⟨[4,4,4,4,4,4,0], [4,4,4,4,4,4,0], 0⟩ 2
      MAXIMIZER ⟨[4,4,0,5,5,5,1], [4,4,4,4,4,4,0], 1⟩ MAXIMIZER 0
      (by decide) rfl,
    ((stone_conservation 24 4).2.1 ⟨[0,0,0,0,0,0,20], [3,0,0,0,4,0,21], 0⟩
      (by decide)).2.2,
    (stone_conservation 24 4).2.2 _ (by norm_num) (Reachable.init)⟩

theorem terminal_sweep_correct_witness :
    (checkEnd 24 ⟨[0,0,0,0,0,0,20], [3,0,0,0,4,0,21], 0⟩).2.1 = true ∧
    (∀ i < 6, (checkEnd 24
      ⟨[0,0,0,0,0,0,20], [3,0,0,0,4,0,21], 0⟩).1.minpits.getD i 0 = 0) ∧
    (checkEnd 24 ⟨[0,0,0,0,0,0,20], [3,0,0,0,4,0,21], 0⟩).1.minpits.getD 6 0 =
      (⟨[0,0,0,0,0,0,20], [3,0,0,0,4,0,21], 0⟩ : Board).minpits.getD 6 0 +
      pitSum (⟨[0,0,0,0,0,0,20], [3,0,0,0,4,0,21], 0⟩ : Board).minpits ∧
    (∀ i < 6, (checkEnd 24
      ⟨[0,0,0,0,0,0,20], [3,0,0,0,4,0,21], 0⟩).1.maxpits.getD i 0 = 0) ∧
    (checkEnd 24 ⟨[0,0,0,0,0,0,20], [3,0,0,0,4,0,21], 0⟩).1.maxpits.getD 6 0 =
      (⟨[0,0,0,0,0,0,20], [3,0,0,0,4,0,21], 0⟩ : Board).maxpits.getD 6 0 :=
  (terminal_sweep_correct 24 ⟨[0,0,0,0,0,0,20], [3,0,0,0,4,0,21], 0⟩
    (by decide) (by decide) (by decide)).1 (by decide) (by decide)

theorem store_majority_ends_witness :
    checkEnd 24 ⟨[0,0,0,0,0,0,25], [23,0,0,0,0,0,0], 0⟩ =
      (⟨[0,0,0,0,0,0,25], [23,0,0,0,0,0,0], 0⟩, true, MAXIMIZER) :=
  (store_majority_ends 24 ⟨[0,0,0,0,0,0,25], [23,0,0,0,0,0,0], 0⟩
    (by decide) (by decide)).1 (by decide)

theorem checkEnd_idempotent_witness :
    checkEnd 24 (checkEnd 24 ⟨[0,0,0,0,0,0,20], [3,0,0,0,4,0,21], 0⟩).1 =
      checkEnd 24 ⟨[0,0,0,0,0,0,20], [3,0,0,0,4,0,21], 0⟩ :=
  checkEnd_idempotent 24 ⟨[0,0,0,0,0,0,20], [3,0,0,0,4,0,21], 0⟩ (by decide)
